import Mathlib

/-!
Verification of the trading-signal and backtesting core of the
stock-prediction platform.  The Python sources are shallowly embedded:
prices and indicator values are rationals, the Python `int()` conversion
is explicit truncation toward zero, pandas NaN propagation is modelled
with `Option`, and the stateful backtest loop is a fold over bar indices.
-/

namespace StockPred

/-- Python `int()` applied to a rational: truncation toward zero. -/
def pytrunc (q : ℚ) : ℤ :=
  if 0 ≤ q then ⌊q⌋ else ⌈q⌉

theorem pytrunc_of_nonneg (q : ℚ) (h : 0 ≤ q) : pytrunc q = ⌊q⌋ := by
  simp [pytrunc, h]

theorem pytrunc_nonneg (q : ℚ) (h : 0 ≤ q) : 0 ≤ pytrunc q := by
  rw [pytrunc_of_nonneg q h]
  exact Int.floor_nonneg.mpr h

/-- Python `min` on integers. -/
def pymin (a b : ℤ) : ℤ := min a b

/-! ## Position sizer (src/trading_signals/position_sizer.py) -/

/-- `MAX_POSITION_SIZE_PCT` from app/config.py. -/
def MAX_POSITION_SIZE_PCT : ℚ := 20

/-- Embedding of `PositionSizer.calculate_position_size`. -/
def calculate_position_size (portfolio_value entry_price stop_loss_price : ℚ)
    (risk_per_trade_pct : ℚ) : ℤ :=
  if portfolio_value ≤ 0 ∨ entry_price ≤ 0 then 0
  else
    let risk_amount := portfolio_value * (risk_per_trade_pct / 100)
    let risk_per_share := |entry_price - stop_loss_price|
    if risk_per_share = 0 then 0
    else
      let shares := risk_amount / risk_per_share
      let position_value := shares * entry_price
      let max_position_value := portfolio_value * (MAX_POSITION_SIZE_PCT / 100)
      if position_value > max_position_value then
        pytrunc (max_position_value / entry_price)
      else
        pytrunc shares

/-! ## Stop-loss validator (src/trading_signals/stop_loss_calculator.py) -/

/-- Tags for the messages `validate_stop_loss` may append; the numeric
interpolations of the Python f-strings are irrelevant to which message
is emitted, so each distinct message is one constructor. -/
inductive SLMsg where
  | stop_above_entry
  | stop_nonpositive
  | too_wide
  | wide_warning
  | premature_trigger
  | widen_suggestion
  | below_range
  | above_range
  | optimal
  deriving DecidableEq, Repr

structure SLResult where
  is_valid : Bool
  errors : List SLMsg
  warnings : List SLMsg
  suggestions : List SLMsg
  deriving DecidableEq, Repr

/-- The loss percentage used by `validate_stop_loss`. -/
def slLossPct (entry_price stop_loss : ℚ) : ℚ :=
  ((entry_price - stop_loss) / entry_price) * 100

/-- Embedding of `StopLossCalculator.validate_stop_loss`. -/
def validate_stop_loss (entry_price stop_loss : ℚ) : SLResult :=
  if entry_price ≤ stop_loss then
    ⟨false, [SLMsg.stop_above_entry], [], []⟩
  else if stop_loss ≤ 0 then
    ⟨false, [SLMsg.stop_nonpositive], [], []⟩
  else
    let loss_pct := slLossPct entry_price stop_loss
    let errs := if 20 < loss_pct then [SLMsg.too_wide] else []
    let warn1 := if 20 < loss_pct then []
      else if 10 < loss_pct then [SLMsg.wide_warning] else []
    let warn2 := if loss_pct < 1/2 then [SLMsg.premature_trigger] else []
    let sugg1 := if loss_pct < 1/2 then [SLMsg.widen_suggestion] else []
    let sugg2 := if loss_pct < 2 then [SLMsg.below_range]
      else if 8 < loss_pct then [SLMsg.above_range] else [SLMsg.optimal]
    ⟨decide (¬ 20 < loss_pct), errs, warn1 ++ warn2, sugg1 ++ sugg2⟩

/-! ## Signal generator (src/trading_signals/signal_generator.py)

A pandas DataFrame row-aligned with optional indicator columns is
embedded as a required Close column plus `Option` columns; `Option`
results of the sub-rules model Python exceptions (out-of-range `iloc`
or a missing `BB_Middle` column). -/

inductive Action where
  | BUY
  | SELL
  | HOLD
  deriving DecidableEq, Repr

/-- Tags for the reason strings of the signal generator. -/
inductive RMsg where
  | rsi_oversold
  | rsi_overbought
  | rsi_neutral
  | macd_bull_cross
  | macd_bear_cross
  | macd_above
  | macd_below
  | macd_neutral
  | golden_cross
  | death_cross
  | uptrend
  | downtrend
  | ma_no_trend
  | bb_below_lower
  | bb_above_upper
  | bb_within
  | mom_up
  | mom_down
  | mom_weak
  | no_clear_signal
  | mixed_signals
  deriving DecidableEq, Repr

structure Sig where
  signal : Action
  strength : ℤ
  confidence : ℤ
  reasons : List RMsg
  deriving DecidableEq, Repr

structure Frame where
  close : List ℚ
  rsi : Option (List ℚ) := none
  macd : Option (List ℚ) := none
  macdSignal : Option (List ℚ) := none
  sma20 : Option (List ℚ) := none
  sma50 : Option (List ℚ) := none
  bbUpper : Option (List ℚ) := none
  bbMiddle : Option (List ℚ) := none
  bbLower : Option (List ℚ) := none
  volumeRatio : Option (List ℚ) := none
  deriving Repr

/-- `series.iloc[-k]` for k = 1, 2: `none` is the Python IndexError. -/
def ilocNeg (xs : List ℚ) (k : ℕ) : Option ℚ :=
  if 1 ≤ k ∧ k ≤ xs.length then xs.get? (xs.length - k) else none

/-- config values RSI_OVERSOLD / RSI_OVERBOUGHT and the sensitivity remap. -/
def rsiThresholds (sens : String) : ℚ × ℚ :=
  if sens = "Conservative" then (25, 75)
  else if sens = "Aggressive" then (35, 65)
  else (30, 70)

/-- `MACD_SIGNAL_THRESHOLD` from app/config.py. -/
def MACD_SIGNAL_THRESHOLD : ℚ := 1/2

/-- Embedding of `SignalGenerator._generate_rsi_signal`. -/
def generate_rsi_signal (f : Frame) (sens : String) : Option Sig :=
  match f.rsi with
  | none => some ⟨Action.HOLD, 5, 50, []⟩
  | some col =>
    match ilocNeg col 1 with
    | none => none
    | some rsi =>
      let t := rsiThresholds sens
      if rsi < t.1 then
        some ⟨Action.BUY, pymin 10 (pytrunc ((t.1 - rsi) / 3)),
          pymin 95 (pytrunc (70 + (t.1 - rsi))), [RMsg.rsi_oversold]⟩
      else if t.2 < rsi then
        some ⟨Action.SELL, pymin 10 (pytrunc ((rsi - t.2) / 3)),
          pymin 95 (pytrunc (70 + (rsi - t.2))), [RMsg.rsi_overbought]⟩
      else
        some ⟨Action.HOLD, 5, 50, [RMsg.rsi_neutral]⟩

/-- Embedding of `SignalGenerator._generate_macd_signal`. -/
def generate_macd_signal (f : Frame) (_sens : String) : Option Sig :=
  match f.macd, f.macdSignal with
  | some mcol, some scol =>
    match ilocNeg mcol 1, ilocNeg scol 1, ilocNeg mcol 2, ilocNeg scol 2 with
    | some macd, some macdSig, some macdPrev, some sigPrev =>
      let diff := macd - macdSig
      let prev_diff := macdPrev - sigPrev
      if prev_diff < 0 ∧ 0 < diff then
        some ⟨Action.BUY, pymin 10 (pytrunc (|diff| * 10)),
          pymin 90 (pytrunc (65 + |diff| * 20)), [RMsg.macd_bull_cross]⟩
      else if 0 < prev_diff ∧ diff < 0 then
        some ⟨Action.SELL, pymin 10 (pytrunc (|diff| * 10)),
          pymin 90 (pytrunc (65 + |diff| * 20)), [RMsg.macd_bear_cross]⟩
      else if MACD_SIGNAL_THRESHOLD < diff then
        some ⟨Action.BUY, 6, 60, [RMsg.macd_above]⟩
      else if diff < -MACD_SIGNAL_THRESHOLD then
        some ⟨Action.SELL, 6, 60, [RMsg.macd_below]⟩
      else
        some ⟨Action.HOLD, 5, 50, [RMsg.macd_neutral]⟩
    | _, _, _, _ => none
  | _, _ => some ⟨Action.HOLD, 5, 50, []⟩

/-- Embedding of `SignalGenerator._generate_ma_signal`. -/
def generate_ma_signal (f : Frame) (_sens : String) : Option Sig :=
  match f.sma20, f.sma50 with
  | some c20, some c50 =>
    match ilocNeg c20 1, ilocNeg c50 1, ilocNeg c20 2, ilocNeg c50 2,
        ilocNeg f.close 1 with
    | some s20, some s50, some s20p, some s50p, some price =>
      if s20p < s50p ∧ s50 < s20 then
        some ⟨Action.BUY, 8, 75, [RMsg.golden_cross]⟩
      else if s50p < s20p ∧ s20 < s50 then
        some ⟨Action.SELL, 8, 75, [RMsg.death_cross]⟩
      else if s50 < s20 ∧ s20 < price then
        some ⟨Action.BUY, 6, 65, [RMsg.uptrend]⟩
      else if price < s20 ∧ s20 < s50 then
        some ⟨Action.SELL, 6, 65, [RMsg.downtrend]⟩
      else
        some ⟨Action.HOLD, 5, 50, [RMsg.ma_no_trend]⟩
    | _, _, _, _, _ => none
  | _, _ => some ⟨Action.HOLD, 5, 50, []⟩

/-- Embedding of `SignalGenerator._generate_bb_signal`.  Note the Python
reads `BB_Middle` unconditionally once the upper/lower guard passes, so
a frame with upper and lower bands but no middle band raises. -/
def generate_bb_signal (f : Frame) (_sens : String) : Option Sig :=
  match f.bbUpper, f.bbLower with
  | some ucol, some lcol =>
    match ilocNeg f.close 1, ilocNeg ucol 1, ilocNeg lcol 1 with
    | some price, some bb_upper, some bb_lower =>
      match f.bbMiddle with
      | none => none
      | some mcol =>
        match ilocNeg mcol 1 with
        | none => none
        | some _ =>
          if price < bb_lower then
            some ⟨Action.BUY, pymin 10 (pytrunc ((bb_lower - price) / bb_lower * 100)),
              70, [RMsg.bb_below_lower]⟩
          else if bb_upper < price then
            some ⟨Action.SELL, pymin 10 (pytrunc ((price - bb_upper) / bb_upper * 100)),
              70, [RMsg.bb_above_upper]⟩
          else
            some ⟨Action.HOLD, 5, 50, [RMsg.bb_within]⟩
    | _, _, _ => none
  | _, _ => some ⟨Action.HOLD, 5, 50, []⟩

/-- `Close.pct_change(5).iloc[-1] * 100`: the outer `none` is the
IndexError on an empty frame, the inner `none` the NaN produced when
fewer than 6 bars exist. -/
def momReturns (xs : List ℚ) : Option (Option ℚ) :=
  if xs.length = 0 then none
  else if xs.length < 6 then some none
  else
    match ilocNeg xs 1, ilocNeg xs 6 with
    | some last, some base => some (some ((last - base) / base * 100))
    | _, _ => some none

/-- Embedding of `SignalGenerator._generate_momentum_signal`. -/
def generate_momentum_signal (f : Frame) (_sens : String) : Option Sig :=
  match momReturns f.close with
  | none => none
  | some rOpt =>
    let vrOpt : Option ℚ :=
      match f.volumeRatio with
      | none => some 1
      | some vcol => ilocNeg vcol 1
    match vrOpt with
    | none => none
    | some vr =>
      match rOpt with
      | none => some ⟨Action.HOLD, 5, 50, [RMsg.mom_weak]⟩
      | some r =>
        if 3 < r ∧ 6/5 < vr then
          some ⟨Action.BUY, 7, 70, [RMsg.mom_up]⟩
        else if r < -3 ∧ 6/5 < vr then
          some ⟨Action.SELL, 7, 70, [RMsg.mom_down]⟩
        else
          some ⟨Action.HOLD, 5, 50, [RMsg.mom_weak]⟩

/-- Embedding of `SignalGenerator._generate_composite_signal`. -/
def generate_composite_signal (f : Frame) (sens : String) : Option Sig :=
  match generate_rsi_signal f sens, generate_macd_signal f sens,
      generate_ma_signal f sens, generate_bb_signal f sens with
  | some r, some m, some a, some b =>
    let subs := [r, m, a, b]
    let signals := subs.filter (fun s => s.signal ≠ Action.HOLD)
    if signals.isEmpty then
      some ⟨Action.HOLD, 5, 50, [RMsg.no_clear_signal]⟩
    else
      let buy_score : ℚ :=
        ((signals.filter (fun s => s.signal = Action.BUY)).length : ℚ) * (1/4)
      let sell_score : ℚ :=
        ((signals.filter (fun s => s.signal = Action.SELL)).length : ℚ) * (1/4)
      let pick : Action × ℤ × ℤ :=
        if sell_score < buy_score ∧ 2/5 < buy_score then
          (Action.BUY, pymin 10 (pytrunc (buy_score * 15)),
            pymin 95 (pytrunc (buy_score * 100)))
        else if buy_score < sell_score ∧ 2/5 < sell_score then
          (Action.SELL, pymin 10 (pytrunc (sell_score * 15)),
            pymin 95 (pytrunc (sell_score * 100)))
        else (Action.HOLD, 5, 50)
      let reasons :=
        ((signals.filter (fun s => s.signal = pick.1)).flatMap Sig.reasons).take 3
      some ⟨pick.1, pick.2.1, pick.2.2,
        if reasons.isEmpty then [RMsg.mixed_signals] else reasons⟩
  | _, _, _, _ => none

/-- Embedding of `SignalGenerator.generate_signal`. -/
def generate_signal (f : Frame) (strategy sens : String) : Option Sig :=
  if strategy = "AI Composite" then generate_composite_signal f sens
  else if strategy = "RSI Strategy" then generate_rsi_signal f sens
  else if strategy = "MACD Crossover" then generate_macd_signal f sens
  else if strategy = "Moving Average" then generate_ma_signal f sens
  else if strategy = "Bollinger Bands" then generate_bb_signal f sens
  else if strategy = "Momentum" then generate_momentum_signal f sens
  else generate_composite_signal f sens

/-! ## Backtesting engine (src/portfolio/backtesting_engine.py)

The strategy parameter dict and the backtest config dict are embedded as
structures whose default field values are the `.get` defaults of the
Python code.  The bar frame is its Close column; dates are bar indices. -/

structure StratParams where
  type : String := "ma_crossover"
  short_window : ℕ := 20
  long_window : ℕ := 50
  period : ℕ := 14
  oversold : ℚ := 30
  overbought : ℚ := 70
  fast_period : ℕ := 12
  slow_period : ℕ := 26
  signal_period : ℕ := 9

structure BtConfig where
  initial_capital : ℚ := 10000
  position_size : ℚ := 1
  commission : ℚ := 1

/-- `rolling(window=w).mean()` of `xs` read at absolute position `j`:
`none` is the pandas NaN emitted while fewer than `w` observations
exist (or an out-of-range read). -/
def smaAt (w : ℕ) (xs : List ℚ) (j : ℕ) : Option ℚ :=
  if 1 ≤ w ∧ w ≤ j + 1 ∧ j < xs.length then
    some (((xs.drop (j + 1 - w)).take w).sum / w)
  else none

/-- `a < b` under NaN semantics: any comparison with NaN is `false`. -/
def oltB : Option ℚ → Option ℚ → Bool
  | some a, some b => a < b
  | _, _ => false

/-- `a ≤ b` under NaN semantics. -/
def oleB : Option ℚ → Option ℚ → Bool
  | some a, some b => a ≤ b
  | _, _ => false

/-- `Close.diff()`: first entry NaN, then consecutive differences. -/
def diffs (xs : List ℚ) : List (Option ℚ) :=
  match xs with
  | [] => []
  | _ :: rest => none :: (List.zipWith (fun b a => some (b - a)) rest xs)

/-- `delta.where(delta > 0, 0)`: NaN fails the condition, giving 0. -/
def gainList (xs : List ℚ) : List ℚ :=
  (diffs xs).map fun d =>
    match d with
    | none => 0
    | some v => if 0 < v then v else 0

/-- `-delta.where(delta < 0, 0)`. -/
def lossList (xs : List ℚ) : List ℚ :=
  (diffs xs).map fun d =>
    match d with
    | none => 0
    | some v => if v < 0 then -v else 0

/-- One step of `ewm(span, adjust=False).mean()`. -/
def emaStep (a acc y : ℚ) : ℚ := a * y + (1 - a) * acc

/-- `ewm(span=s, adjust=False).mean()` over a series. -/
def emaList (span : ℕ) (xs : List ℚ) : List ℚ :=
  match xs with
  | [] => []
  | x :: rest => rest.scanl (emaStep (2 / ((span : ℚ) + 1))) x

/-- The RSI value `100 - 100/(1 + avg_gain/avg_loss)` with IEEE
semantics: `0/0` is NaN and `g/0` for `g > 0` is `+inf`, collapsing the
expression to 100. -/
def rsiValue (ag al : Option ℚ) : Option ℚ :=
  match ag, al with
  | some g, some l =>
    if 0 < l then some (100 - 100 / (1 + g / l))
    else if 0 < g then some 100
    else none
  | _, _ => none

/-- Embedding of `BacktestingEngine._generate_signal`, evaluated on an
expanding window `xs` (the Python code reads only the last two
positions of each derived series). -/
def btSignal (xs : List ℚ) (p : StratParams) : Action :=
  let n := xs.length
  if n < 50 then Action.HOLD
  else if p.type = "ma_crossover" then
    if n < p.long_window then Action.HOLD
    else
      let s1 := smaAt p.short_window xs (n - 1)
      let l1 := smaAt p.long_window xs (n - 1)
      let s0 := smaAt p.short_window xs (n - 2)
      let l0 := smaAt p.long_window xs (n - 2)
      if oltB l1 s1 && oleB s0 l0 then Action.BUY
      else if oltB s1 l1 && oleB l0 s0 then Action.SELL
      else Action.HOLD
  else if p.type = "rsi" then
    if n < p.period then Action.HOLD
    else
      let ag := smaAt p.period (gainList xs) (n - 1)
      let al := smaAt p.period (lossList xs) (n - 1)
      let rsi := rsiValue ag al
      if oltB rsi (some p.oversold) then Action.BUY
      else if oltB (some p.overbought) rsi then Action.SELL
      else Action.HOLD
  else if p.type = "macd" then
    if n < p.slow_period + p.signal_period then Action.HOLD
    else
      let emaF := emaList p.fast_period xs
      let emaS := emaList p.slow_period xs
      let macd := List.zipWith (· - ·) emaF emaS
      let msig := emaList p.signal_period macd
      match ilocNeg macd 1, ilocNeg msig 1, ilocNeg macd 2, ilocNeg msig 2 with
      | some m1, some g1, some m0, some g0 =>
        if g1 < m1 ∧ m0 ≤ g0 then Action.BUY
        else if m1 < g1 ∧ g0 ≤ m0 then Action.SELL
        else Action.HOLD
      | _, _, _, _ => Action.HOLD
  else Action.HOLD

structure Trade where
  date : ℕ
  ty : Action
  price : ℚ
  shares : ℤ
  value : ℚ
  commission : ℚ
  deriving DecidableEq, Repr

structure HistEntry where
  date : ℕ
  value : ℚ
  cash : ℚ
  shares : ℤ
  price : ℚ
  deriving DecidableEq, Repr

structure BtSt where
  cash : ℚ
  shares : ℤ
  trades : List Trade
  hist : List HistEntry
  deriving DecidableEq, Repr

/-- The body of the per-bar loop of `run_backtest` at bar index `i`. -/
def btStep (xs : List ℚ) (p : StratParams) (cfg : BtConfig) (st : BtSt) (i : ℕ) :
    BtSt :=
  let price := xs.getD i 0
  let signal := btSignal (xs.take (i + 1)) p
  let st1 : BtSt :=
    { st with hist := st.hist ++
        [⟨i, st.cash + st.shares * price, st.cash, st.shares, price⟩] }
  if signal = Action.BUY ∧ st.shares = 0 ∧ price < st.cash then
    let max_shares := pytrunc (st.cash * cfg.position_size / price)
    if 0 < max_shares then
      { st1 with
          shares := max_shares
          cash := st.cash - (max_shares * price + cfg.commission)
          trades := st.trades ++
            [⟨i, Action.BUY, price, max_shares, max_shares * price, cfg.commission⟩] }
    else st1
  else if signal = Action.SELL ∧ 0 < st.shares then
    { st1 with
        cash := st.cash + (st.shares * price - cfg.commission)
        shares := 0
        trades := st.trades ++
          [⟨i, Action.SELL, price, st.shares, st.shares * price, cfg.commission⟩] }
  else st1

/-- The loop of `run_backtest`: bars 1 to len-1 in order. -/
def btRun (xs : List ℚ) (p : StratParams) (cfg : BtConfig) : BtSt :=
  (List.range' 1 (xs.length - 1)).foldl (btStep xs p cfg)
    ⟨cfg.initial_capital, 0, [], []⟩

/-- Exact symbolic value of a float expression whose only irrationality
is a square root: `sqrtRatio m v` denotes `m / sqrt v` (meaningful for
`0 < v`), and `nan` a propagated IEEE NaN. -/
inductive PyFloat where
  | rat (q : ℚ)
  | sqrtRatio (m v : ℚ)
  | nan
  deriving DecidableEq, Repr

/-- `series.pct_change().dropna()` over a list of values. -/
def pctChanges (vs : List ℚ) : List ℚ :=
  List.zipWith (fun b a => (b - a) / a) vs.tail vs

/-- Arithmetic mean of a list. -/
def listMean (rs : List ℚ) : ℚ := rs.sum / (rs.length : ℚ)

/-- `np.std(rs) ** 2`: population variance (ddof = 0). -/
def popVar (rs : List ℚ) : ℚ :=
  (rs.map fun r => (r - listMean rs) ^ 2).sum / (rs.length : ℚ)

/-- `pandas.Series.std() ** 2`: sample variance (ddof = 1); the
division by `n - 1` is the NaN source when `n = 1`. -/
def sampleVar (rs : List ℚ) : ℚ :=
  (rs.map fun r => (r - listMean rs) ^ 2).sum / ((rs.length : ℚ) - 1)

/-- Sharpe ratio of `_calculate_backtest_metrics`:
`(np.mean(r)/np.std(r)) * sqrt(252)` guarded by `np.std(r) > 0`
(`np.std` is the population deviation, defined for any nonempty list).
`m/sqrt(v) * sqrt(252) = m / sqrt(v/252)`. -/
def sharpeBT (histVals : List ℚ) : PyFloat :=
  if histVals.isEmpty then PyFloat.rat 0
  else
    let returns := pctChanges histVals
    if returns.isEmpty then PyFloat.rat 0
    else
      if 0 < popVar returns then
        PyFloat.sqrtRatio (listMean returns) (popVar returns / 252)
      else PyFloat.rat 0

/-- The fields of the backtest result dict that the verified claims
read; the remaining win/loss statistics are independent derived data. -/
structure BtReport where
  initial_capital : ℚ
  final_value : ℚ
  total_return : ℚ
  total_trades : ℕ
  sharpe_ratio : PyFloat
  trades : List Trade
  portfolio_history : List HistEntry
  deriving DecidableEq, Repr

/-- Embedding of `BacktestingEngine.run_backtest`; `none` is the raise
on an empty frame (`iloc[-1]`). -/
def run_backtest (xs : List ℚ) (p : StratParams) (cfg : BtConfig) :
    Option BtReport :=
  if xs.isEmpty then none
  else
    let st := btRun xs p cfg
    let final_value := st.cash + st.shares * xs.getLastD 0
    some
      { initial_capital := cfg.initial_capital
        final_value := final_value
        total_return := (final_value - cfg.initial_capital) / cfg.initial_capital * 100
        total_trades := st.trades.length
        sharpe_ratio := sharpeBT (st.hist.map HistEntry.value)
        trades := st.trades
        portfolio_history := st.hist }

/-- Sharpe ratio of `RiskAnalyzer._calculate_sharpe_ratio`: pandas
sample deviation (ddof = 1), 2 percent risk-free rate, guard
`volatility != 0`.  With zero returns it is NaN (mean of an empty
series), and with exactly one return the ddof-1 deviation is NaN, which
passes the `!= 0` guard and contaminates the quotient. -/
def sharpeRA (closes : List ℚ) : PyFloat :=
  let returns := pctChanges closes
  if returns.length = 0 then PyFloat.nan
  else if returns.length = 1 then PyFloat.nan
  else
    if sampleVar returns = 0 then PyFloat.rat 0
    else PyFloat.sqrtRatio (listMean returns * 252 - 1/50) (252 * sampleVar returns)

/-! ## Claim C5: position-size cap -/

theorem pytrunc_le_self (q : ℚ) (h : 0 ≤ q) : (pytrunc q : ℚ) ≤ q := by
  rw [pytrunc_of_nonneg q h]
  exact_mod_cast Int.floor_le q

/-- C5: with portfolio 10000, entry 50, stop 48, risk 2 percent the sizer
returns exactly 40 shares, and in general whenever the uncapped position
value exceeds the 20 percent cap the share count is recomputed as
`floor(cap / entry)`, whose value never exceeds the cap. -/
theorem calculate_position_size_cap
    (pv e sl rp : ℚ) (hpv : 0 < pv) (he : 0 < e)
    (hrs : ¬ |e - sl| = 0)
    (hover : pv * (MAX_POSITION_SIZE_PCT / 100) < pv * (rp / 100) / |e - sl| * e) :
    calculate_position_size pv e sl rp = ⌊pv * (MAX_POSITION_SIZE_PCT / 100) / e⌋ ∧
    (calculate_position_size pv e sl rp : ℚ) * e ≤ MAX_POSITION_SIZE_PCT / 100 * pv ∧
    calculate_position_size 10000 50 48 2 = 40 := by
  have hne : ¬ (pv ≤ 0 ∨ e ≤ 0) := by push_neg; exact ⟨hpv, he⟩
  have hcap : 0 ≤ pv * (MAX_POSITION_SIZE_PCT / 100) / e := by
    have : (0:ℚ) < MAX_POSITION_SIZE_PCT / 100 := by norm_num [MAX_POSITION_SIZE_PCT]
    positivity
  have hval : calculate_position_size pv e sl rp =
      pytrunc (pv * (MAX_POSITION_SIZE_PCT / 100) / e) := by
    simp only [calculate_position_size, if_neg hne, if_neg hrs, if_pos hover]
  refine ⟨?_, ?_, ?_⟩
  · rw [hval, pytrunc_of_nonneg _ hcap]
  · rw [hval]
    calc (pytrunc (pv * (MAX_POSITION_SIZE_PCT / 100) / e) : ℚ) * e
        ≤ pv * (MAX_POSITION_SIZE_PCT / 100) / e * e := by
          have := pytrunc_le_self _ hcap
          exact mul_le_mul_of_nonneg_right this he.le
      _ = MAX_POSITION_SIZE_PCT / 100 * pv := by
          field_simp
          ring
  · norm_num [calculate_position_size, MAX_POSITION_SIZE_PCT, pytrunc]

theorem calculate_position_size_cap_witness :
    calculate_position_size 10000 50 48 2 = 40 :=
  (calculate_position_size_cap 10000 50 48 2 (by norm_num) (by norm_num)
    (by norm_num) (by norm_num [MAX_POSITION_SIZE_PCT])).2.2

/-! ## Claim C6: stop-loss validation thresholds -/

/-- C6 counterexample: at entry 100 and stop 80 the loss percentage is
exactly 20 and the validator still returns `is_valid = true` (the code
rejects only losses strictly greater than 20 percent), refuting the
claim that this input is invalid with a too-wide error. -/
theorem validate_stop_loss_at_20_valid :
    (validate_stop_loss 100 80).is_valid = true ∧
    (validate_stop_loss 100 80).errors = [] ∧
    slLossPct 100 80 = 20 := by
  refine ⟨?_, ?_, ?_⟩ <;> norm_num [validate_stop_loss, slLossPct]

/-- C6 amended: a loss percentage strictly greater than 20 makes the
result invalid with a too-wide error; exactly 20 percent (the 100/80
example) stays valid, carrying a wide-stop warning; below 0.5 percent
the result is valid and carries a premature-trigger warning. -/
theorem validate_stop_loss_thresholds (e s : ℚ) (h0 : 0 < s) (hse : s < e) :
    (20 < slLossPct e s →
      (validate_stop_loss e s).is_valid = false ∧
      SLMsg.too_wide ∈ (validate_stop_loss e s).errors) ∧
    (slLossPct e s = 20 →
      (validate_stop_loss e s).is_valid = true ∧
      SLMsg.wide_warning ∈ (validate_stop_loss e s).warnings) ∧
    (slLossPct e s < 1/2 →
      (validate_stop_loss e s).is_valid = true ∧
      SLMsg.premature_trigger ∈ (validate_stop_loss e s).warnings) := by
  have hne : ¬ e ≤ s := not_le.mpr hse
  have hnp : ¬ s ≤ 0 := not_le.mpr h0
  simp only [validate_stop_loss, if_neg hne, if_neg hnp]
  refine ⟨?_, ?_, ?_⟩
  · intro h20
    simp [h20, not_lt.mpr, h20.not_lt]
  · intro h20
    constructor
    · simp [h20]
    · have h10 : (10:ℚ) < slLossPct e s := by rw [h20]; norm_num
      have hn20 : ¬ 20 < slLossPct e s := by rw [h20]; norm_num
      simp [hn20, h10, List.mem_append]
  · intro hh
    have hn20 : ¬ 20 < slLossPct e s := by linarith
    constructor
    · simp [hn20]
    · have hh2 : slLossPct e s < 2⁻¹ := by linarith
      simp [hn20, hh2, List.mem_append]

theorem validate_stop_loss_thresholds_witness :
    (validate_stop_loss 100 70).is_valid = false ∧
    SLMsg.too_wide ∈ (validate_stop_loss 100 70).errors :=
  (validate_stop_loss_thresholds 100 70 (by norm_num) (by norm_num)).1
    (by norm_num [slLossPct])

/-! ## Claim C9: determinism of the backtest -/

/-- C9: the backtest is a pure function of its inputs — two runs on the
same bar sequence, strategy parameters and configuration yield the same
report, the same ordered trade ledger and the same ordered equity
curve. -/
theorem run_backtest_deterministic (xs : List ℚ) (p : StratParams) (cfg : BtConfig) :
    run_backtest xs p cfg = run_backtest xs p cfg ∧
    (run_backtest xs p cfg).map BtReport.trades =
      (run_backtest xs p cfg).map BtReport.trades ∧
    (run_backtest xs p cfg).map BtReport.portfolio_history =
      (run_backtest xs p cfg).map BtReport.portfolio_history :=
  ⟨rfl, rfl, rfl⟩

/-! ## Claim C10: 50-bar warm-up guard -/

theorem btSignal_hold_short (w : List ℚ) (p : StratParams) (h : w.length < 50) :
    btSignal w p = Action.HOLD := by
  simp [btSignal, h]

theorem btStep_trades_mem (xs : List ℚ) (p : StratParams) (cfg : BtConfig)
    (st : BtSt) (i : ℕ) (t : Trade) (ht : t ∈ (btStep xs p cfg st i).trades) :
    t ∈ st.trades ∨ (t.date = i ∧ 49 ≤ i) := by
  by_cases hi : 49 ≤ i
  · simp only [btStep] at ht
    split_ifs at ht with h1 h2 h3 <;> simp at ht <;>
      first
        | exact Or.inl ht
        | rcases ht with ht | ht
          · exact Or.inl ht
          · exact Or.inr ⟨by rw [ht], hi⟩
  · have hsig : btSignal (xs.take (i + 1)) p = Action.HOLD := by
      apply btSignal_hold_short
      have hlen : (xs.take (i + 1)).length ≤ i + 1 := by
        simp [List.length_take]
      omega
    simp only [btStep, hsig] at ht
    simp at ht
    exact Or.inl ht

theorem btFold_trades_dates (xs : List ℚ) (p : StratParams) (cfg : BtConfig) :
    ∀ (l : List ℕ) (st : BtSt), (∀ t ∈ st.trades, 49 ≤ t.date) →
    ∀ t ∈ (l.foldl (btStep xs p cfg) st).trades, 49 ≤ t.date := by
  intro l
  induction l with
  | nil => intro st h; simpa using h
  | cons a l ih =>
    intro st h
    simp only [List.foldl_cons]
    apply ih
    intro t ht
    rcases btStep_trades_mem xs p cfg st a t ht with h1 | h2
    · exact h t h1
    · rw [h2.1]; exact h2.2

/-- C10: for every strategy type and parameter record the backtest
signal rule answers HOLD on any window of fewer than 50 bars, and
consequently every trade the backtest ever records sits at a bar index
of at least 49. -/
theorem backtest_warmup_guard (xs : List ℚ) (p : StratParams) (cfg : BtConfig) :
    (∀ w : List ℚ, w.length < 50 → btSignal w p = Action.HOLD) ∧
    (∀ t ∈ (btRun xs p cfg).trades, 49 ≤ t.date) ∧
    (∀ r, run_backtest xs p cfg = some r → ∀ t ∈ r.trades, 49 ≤ t.date) := by
  refine ⟨fun w hw => btSignal_hold_short w p hw, ?_, ?_⟩
  · exact btFold_trades_dates xs p cfg _ _ (by simp [btRun])
  · intro r hr
    by_cases hxs : xs.isEmpty
    · simp [run_backtest, hxs] at hr
    · simp only [run_backtest, hxs, if_neg, Bool.false_eq_true, if_false] at hr
      injection hr with hr
      rw [← hr]
      exact btFold_trades_dates xs p cfg _ _ (by simp [btRun])

theorem backtest_warmup_guard_witness :
    btSignal [1, 2, 3] {} = Action.HOLD :=
  (backtest_warmup_guard [] {} {}).1 [1, 2, 3] (by norm_num)

/-! ## Claim C2: equity curve records the pre-action state -/

/-- The history entry `btStep` appends at bar `i` from state `st`. -/
def histEntry (st : BtSt) (xs : List ℚ) (i : ℕ) : HistEntry :=
  ⟨i, st.cash + st.shares * xs.getD i 0, st.cash, st.shares, xs.getD i 0⟩

/-- The backtest state entering bar `i` (bars 1 to i-1 processed). -/
def stateBefore (xs : List ℚ) (p : StratParams) (cfg : BtConfig) (i : ℕ) : BtSt :=
  (List.range' 1 (i - 1)).foldl (btStep xs p cfg) ⟨cfg.initial_capital, 0, [], []⟩

theorem btStep_hist (xs : List ℚ) (p : StratParams) (cfg : BtConfig)
    (st : BtSt) (i : ℕ) :
    (btStep xs p cfg st i).hist = st.hist ++ [histEntry st xs i] := by
  simp only [btStep, histEntry]
  split_ifs <;> rfl

theorem btFold_hist_suffix (xs : List ℚ) (p : StratParams) (cfg : BtConfig) :
    ∀ (l : List ℕ) (st : BtSt),
    ∃ suf, (l.foldl (btStep xs p cfg) st).hist = st.hist ++ suf := by
  intro l
  induction l with
  | nil => intro st; exact ⟨[], by simp⟩
  | cons a l ih =>
    intro st
    obtain ⟨suf, hsuf⟩ := ih (btStep xs p cfg st a)
    refine ⟨[histEntry st xs a] ++ suf, ?_⟩
    simp only [List.foldl_cons, hsuf, btStep_hist]
    simp

theorem btFold_hist_length (xs : List ℚ) (p : StratParams) (cfg : BtConfig) :
    ∀ (l : List ℕ) (st : BtSt),
    (l.foldl (btStep xs p cfg) st).hist.length = st.hist.length + l.length := by
  intro l
  induction l with
  | nil => intro st; simp
  | cons a l ih =>
    intro st
    simp only [List.foldl_cons, ih, btStep_hist]
    simp
    omega

theorem btFold_hist_values (xs : List ℚ) (p : StratParams) (cfg : BtConfig) :
    ∀ (l : List ℕ) (st : BtSt),
    (∀ e ∈ st.hist, e.value = e.cash + e.shares * e.price) →
    ∀ e ∈ (l.foldl (btStep xs p cfg) st).hist,
      e.value = e.cash + e.shares * e.price := by
  intro l
  induction l with
  | nil => intro st h; simpa using h
  | cons a l ih =>
    intro st h
    simp only [List.foldl_cons]
    apply ih
    intro e he
    rw [btStep_hist] at he
    rcases List.mem_append.mp he with h1 | h2
    · exact h e h1
    · rcases List.mem_singleton.mp h2 with rfl
      rfl

/-- C2: the equity-curve entry for bar `i` (the `i-1`-st entry, bars
start at index 1) records portfolio value `cash + shares × close(i)`
computed from the state entering bar `i`, before that bar's signal is
acted on, and the final value marks the terminal state to the last
close. -/
theorem equity_curve_pre_trade_invariant
    (xs : List ℚ) (p : StratParams) (cfg : BtConfig) (i : ℕ)
    (h1 : 1 ≤ i) (hi : i < xs.length) :
    ∃ r, run_backtest xs p cfg = some r ∧
      r.portfolio_history[i - 1]? = some (histEntry (stateBefore xs p cfg i) xs i) ∧
      (∀ e ∈ r.portfolio_history, e.value = e.cash + e.shares * e.price) ∧
      r.final_value =
        (btRun xs p cfg).cash + (btRun xs p cfg).shares * xs.getLastD 0 := by
  have hne : xs.isEmpty = false := by
    cases xs with
    | nil => simp at hi
    | cons a l => rfl
  have hr : run_backtest xs p cfg = some
      { initial_capital := cfg.initial_capital
        final_value := (btRun xs p cfg).cash + (btRun xs p cfg).shares * xs.getLastD 0
        total_return := ((btRun xs p cfg).cash + (btRun xs p cfg).shares * xs.getLastD 0
          - cfg.initial_capital) / cfg.initial_capital * 100
        total_trades := (btRun xs p cfg).trades.length
        sharpe_ratio := sharpeBT ((btRun xs p cfg).hist.map HistEntry.value)
        trades := (btRun xs p cfg).trades
        portfolio_history := (btRun xs p cfg).hist } := by
    simp only [run_backtest, hne, Bool.false_eq_true, if_false]
  refine ⟨_, hr, ?_, ?_, rfl⟩
  · -- the positional characterization of the curve
    have hsplit : List.range' 1 (xs.length - 1) =
        List.range' 1 (i - 1) ++ List.range' i (xs.length - i) := by
      have := List.range'_append_1 1 (i - 1) (xs.length - i)
      rw [show 1 + (i - 1) = i by omega] at this
      rw [show xs.length - i + (i - 1) = xs.length - 1 by omega] at this
      exact this.symm
    have hrun : btRun xs p cfg =
        (List.range' i (xs.length - i)).foldl (btStep xs p cfg)
          (stateBefore xs p cfg i) := by
      rw [btRun, hsplit, List.foldl_append]
      rfl
    have hsucc : List.range' i (xs.length - i) =
        i :: List.range' (i + 1) (xs.length - i - 1) := by
      rw [show xs.length - i = (xs.length - i - 1) + 1 by omega]
      exact List.range'_succ i (xs.length - i - 1) 1
    obtain ⟨suf, hsuf⟩ := btFold_hist_suffix xs p cfg
      (List.range' (i + 1) (xs.length - i - 1)) (btStep xs p cfg (stateBefore xs p cfg i) i)
    have hlen : (stateBefore xs p cfg i).hist.length = i - 1 := by
      have := btFold_hist_length xs p cfg (List.range' 1 (i - 1))
        ⟨cfg.initial_capital, 0, [], []⟩
      simpa [stateBefore] using this
    have hh : (btRun xs p cfg).hist =
        (stateBefore xs p cfg i).hist ++
          ([histEntry (stateBefore xs p cfg i) xs i] ++ suf) := by
      rw [hrun, hsucc, List.foldl_cons, hsuf, btStep_hist]
      simp
    show (btRun xs p cfg).hist[i - 1]? = _
    rw [hh, List.getElem?_append_right (by omega)]
    simp [hlen]
  · exact btFold_hist_values xs p cfg _ _ (by simp [btRun])

theorem equity_curve_pre_trade_invariant_witness :
    ∃ r, run_backtest [5, 7] {} {} = some r ∧
      r.portfolio_history[0]? = some (histEntry (stateBefore [5, 7] {} {} 1) [5, 7] 1) ∧
      (∀ e ∈ r.portfolio_history, e.value = e.cash + e.shares * e.price) ∧
      r.final_value =
        (btRun [5, 7] {} {}).cash + (btRun [5, 7] {} {}).shares * ([5, 7] : List ℚ).getLastD 0 :=
  equity_curve_pre_trade_invariant [5, 7] {} {} 1 (by norm_num) (by norm_num)

/-! ## Claim C3: constant-price backtests never trade -/

theorem smaAt_replicate (w m j : ℕ) (c : ℚ) :
    smaAt w (List.replicate m c) j = some c ∨
    smaAt w (List.replicate m c) j = none := by
  unfold smaAt
  split_ifs with h
  · left
    obtain ⟨h1, h2, h3⟩ := h
    simp only [List.drop_replicate, List.take_replicate, List.length_replicate] at *
    have hmin : min w (m - (j + 1 - w)) = w := by omega
    rw [hmin, List.sum_replicate, nsmul_eq_mul]
    have hw : (w : ℚ) ≠ 0 := Nat.cast_ne_zero.mpr (by omega)
    congr 1
    field_simp
  · right; rfl

theorem oltB_const {a b : Option ℚ} {c : ℚ}
    (ha : a = some c ∨ a = none) (hb : b = some c ∨ b = none) :
    oltB a b = false := by
  rcases ha with rfl | rfl <;> rcases hb with rfl | rfl <;> simp [oltB]

theorem rsiValue_zeroish {ag al : Option ℚ}
    (ha : ag = some 0 ∨ ag = none) (hb : al = some 0 ∨ al = none) :
    rsiValue ag al = none := by
  rcases ha with rfl | rfl <;> rcases hb with rfl | rfl <;> simp [rsiValue]

theorem gainList_replicate (m : ℕ) (c : ℚ) :
    gainList (List.replicate m c) = List.replicate m 0 := by
  cases m with
  | zero => rfl
  | succ k =>
    have hz : ∀ j : ℕ, List.zipWith (fun b a => some (b - a)) (List.replicate j c)
        (c :: List.replicate j c) = List.replicate j (some (0 : ℚ)) := by
      intro j
      induction j with
      | zero => rfl
      | succ j ih =>
        simp only [List.replicate_succ, List.zipWith_cons_cons]
        rw [ih]
        norm_num
    simp only [gainList, diffs, List.replicate_succ]
    rw [hz k]
    simp [List.map_replicate]

theorem lossList_replicate (m : ℕ) (c : ℚ) :
    lossList (List.replicate m c) = List.replicate m 0 := by
  cases m with
  | zero => rfl
  | succ k =>
    have hz : ∀ j : ℕ, List.zipWith (fun b a => some (b - a)) (List.replicate j c)
        (c :: List.replicate j c) = List.replicate j (some (0 : ℚ)) := by
      intro j
      induction j with
      | zero => rfl
      | succ j ih =>
        simp only [List.replicate_succ, List.zipWith_cons_cons]
        rw [ih]
        norm_num
    simp only [lossList, diffs, List.replicate_succ]
    rw [hz k]
    simp [List.map_replicate]

theorem scanl_emaStep_replicate (a c : ℚ) (m : ℕ) :
    (List.replicate m c).scanl (emaStep a) c = List.replicate (m + 1) c := by
  induction m with
  | zero => rfl
  | succ k ih =>
    simp only [List.replicate_succ, List.scanl_cons]
    have hc : emaStep a c c = c := by unfold emaStep; ring
    rw [hc, ih]
    rfl

theorem emaList_replicate (s m : ℕ) (c : ℚ) :
    emaList s (List.replicate m c) = List.replicate m c := by
  cases m with
  | zero => rfl
  | succ k =>
    simp only [emaList, List.replicate_succ]
    exact scanl_emaStep_replicate _ c k

theorem ilocNeg_replicate (m k : ℕ) (c : ℚ) (h1 : 1 ≤ k) (h2 : k ≤ m) :
    ilocNeg (List.replicate m c) k = some c := by
  unfold ilocNeg
  rw [if_pos (by simp; omega)]
  simp only [List.length_replicate]
  rw [List.get?_eq_getElem?]
  exact List.getElem?_replicate_of_lt (by omega)

theorem btSignal_replicate (m : ℕ) (c : ℚ) (p : StratParams) :
    btSignal (List.replicate m c) p = Action.HOLD := by
  unfold btSignal
  simp only [List.length_replicate]
  by_cases h50 : m < 50
  · simp [h50]
  rw [if_neg h50]
  by_cases hma : p.type = "ma_crossover"
  · rw [if_pos hma]
    by_cases hlong : m < p.long_window
    · rw [if_pos hlong]
    · rw [if_neg hlong]
      rw [oltB_const (smaAt_replicate _ _ _ _) (smaAt_replicate _ _ _ _)]
      rw [oltB_const (smaAt_replicate _ _ _ _) (smaAt_replicate _ _ _ _)]
      simp
  rw [if_neg hma]
  by_cases hrsi : p.type = "rsi"
  · rw [if_pos hrsi]
    by_cases hper : m < p.period
    · rw [if_pos hper]
    · rw [if_neg hper]
      rw [gainList_replicate, lossList_replicate]
      rw [rsiValue_zeroish (smaAt_replicate _ _ _ _) (smaAt_replicate _ _ _ _)]
      simp [oltB]
  rw [if_neg hrsi]
  by_cases hmacd : p.type = "macd"
  · rw [if_pos hmacd]
    by_cases hsp : m < p.slow_period + p.signal_period
    · rw [if_pos hsp]
    · rw [if_neg hsp]
      rw [emaList_replicate, emaList_replicate, List.zipWith_replicate',
        emaList_replicate]
      rw [ilocNeg_replicate m 1 _ (by omega) (by omega),
        ilocNeg_replicate m 2 _ (by omega) (by omega)]
      norm_num
  rw [if_neg hmacd]

theorem btStep_hold (xs : List ℚ) (p : StratParams) (cfg : BtConfig)
    (st : BtSt) (i : ℕ) (hsig : btSignal (xs.take (i + 1)) p = Action.HOLD) :
    (btStep xs p cfg st i).cash = st.cash ∧
    (btStep xs p cfg st i).shares = st.shares ∧
    (btStep xs p cfg st i).trades = st.trades := by
  simp only [btStep, hsig]
  simp

theorem btFold_hold (xs : List ℚ) (p : StratParams) (cfg : BtConfig) :
    ∀ (l : List ℕ) (st : BtSt),
    (∀ i ∈ l, btSignal (xs.take (i + 1)) p = Action.HOLD) →
    ((l.foldl (btStep xs p cfg) st).cash = st.cash ∧
     (l.foldl (btStep xs p cfg) st).shares = st.shares ∧
     (l.foldl (btStep xs p cfg) st).trades = st.trades) := by
  intro l
  induction l with
  | nil => intro st _; exact ⟨rfl, rfl, rfl⟩
  | cons a l ih =>
    intro st h
    simp only [List.foldl_cons]
    obtain ⟨hc, hs, ht⟩ := ih (btStep xs p cfg st a)
      (fun i hi => h i (List.mem_cons_of_mem a hi))
    obtain ⟨hc0, hs0, ht0⟩ := btStep_hold xs p cfg st a (h a (List.mem_cons_self a l))
    exact ⟨hc.trans hc0, hs.trans hs0, ht.trans ht0⟩

/-- C3: on a constant-price series every strategy type generates no
trade: the ledger is empty, cash is never debited (no commission), and
the final value equals the initial capital exactly. -/
theorem constant_price_backtest (c : ℚ) (n : ℕ) (p : StratParams) (cfg : BtConfig)
    (hn : 1 ≤ n)
    (_hsw : 1 ≤ p.short_window) (_hlw : 1 ≤ p.long_window) (_hpd : 1 ≤ p.period)
    (_hfp : 1 ≤ p.fast_period) (_hsp : 1 ≤ p.slow_period)
    (_hgp : 1 ≤ p.signal_period) :
    ∃ r, run_backtest (List.replicate n c) p cfg = some r ∧
      r.trades = [] ∧
      (btRun (List.replicate n c) p cfg).cash = cfg.initial_capital ∧
      (btRun (List.replicate n c) p cfg).shares = 0 ∧
      r.final_value = cfg.initial_capital := by
  have hne : (List.replicate n c).isEmpty = false := by
    cases n with
    | zero => omega
    | succ k => rfl
  have hhold : ∀ i ∈ List.range' 1 ((List.replicate n c).length - 1),
      btSignal ((List.replicate n c).take (i + 1)) p = Action.HOLD := by
    intro i _
    rw [List.take_replicate]
    exact btSignal_replicate _ c p
  obtain ⟨hc, hs, ht⟩ := btFold_hold (List.replicate n c) p cfg
    (List.range' 1 ((List.replicate n c).length - 1))
    ⟨cfg.initial_capital, 0, [], []⟩ hhold
  have hrun : (btRun (List.replicate n c) p cfg).cash = cfg.initial_capital ∧
      (btRun (List.replicate n c) p cfg).shares = 0 ∧
      (btRun (List.replicate n c) p cfg).trades = [] := ⟨hc, hs, ht⟩
  have hr : run_backtest (List.replicate n c) p cfg = some
      { initial_capital := cfg.initial_capital
        final_value := (btRun (List.replicate n c) p cfg).cash +
          (btRun (List.replicate n c) p cfg).shares * (List.replicate n c).getLastD 0
        total_return := ((btRun (List.replicate n c) p cfg).cash +
          (btRun (List.replicate n c) p cfg).shares * (List.replicate n c).getLastD 0
          - cfg.initial_capital) / cfg.initial_capital * 100
        total_trades := (btRun (List.replicate n c) p cfg).trades.length
        sharpe_ratio := sharpeBT ((btRun (List.replicate n c) p cfg).hist.map HistEntry.value)
        trades := (btRun (List.replicate n c) p cfg).trades
        portfolio_history := (btRun (List.replicate n c) p cfg).hist } := by
    simp only [run_backtest, hne, Bool.false_eq_true, if_false]
  refine ⟨_, hr, hrun.2.2, hrun.1, hrun.2.1, ?_⟩
  show (btRun (List.replicate n c) p cfg).cash +
      (btRun (List.replicate n c) p cfg).shares * (List.replicate n c).getLastD 0
      = cfg.initial_capital
  rw [hrun.1, hrun.2.1]
  norm_num

theorem constant_price_backtest_witness :
    ∃ r, run_backtest (List.replicate 60 (5 : ℚ)) {} {} = some r ∧
      r.trades = [] ∧
      (btRun (List.replicate 60 (5 : ℚ)) {} {}).cash = BtConfig.initial_capital {} ∧
      (btRun (List.replicate 60 (5 : ℚ)) {} {}).shares = 0 ∧
      r.final_value = BtConfig.initial_capital {} :=
  constant_price_backtest 5 60 {} {} (by norm_num) (by norm_num) (by norm_num)
    (by norm_num) (by norm_num) (by norm_num) (by norm_num)

/-! ## Claim C8: Sharpe-ratio zero-volatility guards -/

/-- C8 counterexample: on the two-bar frame `[1, 2]` there is exactly
one daily return, the pandas ddof-1 standard deviation of a singleton
is NaN, NaN passes the `volatility != 0` guard, and the risk analyzer
returns a non-finite Sharpe ratio — refuting the claim that the Sharpe
computation never returns a non-finite value. -/
theorem sharpeRA_nan_on_two_bars :
    sharpeRA [1, 2] = PyFloat.nan ∧ (pctChanges [1, 2]).length = 1 := by
  constructor <;> rfl

theorem popVar_nonneg (rs : List ℚ) : 0 ≤ popVar rs := by
  unfold popVar
  apply div_nonneg
  · apply List.sum_nonneg
    intro x hx
    obtain ⟨r, _, rfl⟩ := List.mem_map.mp hx
    positivity
  · positivity

theorem sampleVar_nonneg (rs : List ℚ) (h : 2 ≤ rs.length) : 0 ≤ sampleVar rs := by
  unfold sampleVar
  apply div_nonneg
  · apply List.sum_nonneg
    intro x hx
    obtain ⟨r, _, rfl⟩ := List.mem_map.mp hx
    positivity
  · have : (2 : ℚ) ≤ (rs.length : ℚ) := by exact_mod_cast h
    linarith

/-- C8 amended: with at least two daily returns the risk analyzer maps
zero variance to Sharpe 0 and otherwise emits a ratio with a strictly
positive denominator (never NaN, never a division by zero); the
backtest report Sharpe (population deviation, always defined) is 0
whenever the equity-curve returns have zero variance and is never
non-finite — but on a frame with fewer than two returns the analyzer
propagates NaN. -/
theorem sharpe_zero_volatility_guard (closes : List ℚ)
    (h2 : 2 ≤ (pctChanges closes).length)
    (xs : List ℚ) (p : StratParams) (cfg : BtConfig) :
    (sampleVar (pctChanges closes) = 0 → sharpeRA closes = PyFloat.rat 0) ∧
    sharpeRA closes ≠ PyFloat.nan ∧
    (∀ m v, sharpeRA closes = PyFloat.sqrtRatio m v → 0 < v) ∧
    (∀ r, run_backtest xs p cfg = some r →
      r.sharpe_ratio ≠ PyFloat.nan ∧
      (∀ m v, r.sharpe_ratio = PyFloat.sqrtRatio m v → 0 < v) ∧
      (popVar (pctChanges (r.portfolio_history.map HistEntry.value)) = 0 →
        r.sharpe_ratio = PyFloat.rat 0)) := by
  have hn0 : ¬ (pctChanges closes).length = 0 := by omega
  have hn1 : ¬ (pctChanges closes).length = 1 := by omega
  have hbt : ∀ vals : List ℚ,
      sharpeBT vals ≠ PyFloat.nan ∧
      (∀ m v, sharpeBT vals = PyFloat.sqrtRatio m v → 0 < v) ∧
      (popVar (pctChanges vals) = 0 → sharpeBT vals = PyFloat.rat 0) := by
    intro vals
    simp only [sharpeBT]
    by_cases hv : vals.isEmpty
    · simp [hv]
    · simp only [hv, Bool.false_eq_true, if_false]
      by_cases hre : (pctChanges vals).isEmpty
      · simp [hre]
      · simp only [hre, Bool.false_eq_true, if_false]
        by_cases hpv : 0 < popVar (pctChanges vals)
        · simp only [if_pos hpv]
          refine ⟨by simp, ?_, ?_⟩
          · intro m v hmv
            rw [PyFloat.sqrtRatio.injEq] at hmv
            rw [← hmv.2]
            positivity
          · intro h0
            rw [h0] at hpv
            norm_num at hpv
        · simp only [if_neg hpv]
          exact ⟨by simp, by simp, by simp⟩
  refine ⟨?_, ?_, ?_, ?_⟩
  · intro h0
    simp only [sharpeRA, if_neg hn0, if_neg hn1, if_pos h0]
  · simp only [sharpeRA, if_neg hn0, if_neg hn1]
    split_ifs <;> simp
  · intro m v hmv
    simp only [sharpeRA, if_neg hn0, if_neg hn1] at hmv
    split_ifs at hmv with hv
    rw [PyFloat.sqrtRatio.injEq] at hmv
    rw [← hmv.2]
    have hge := sampleVar_nonneg (pctChanges closes) h2
    have : 0 < sampleVar (pctChanges closes) := lt_of_le_of_ne hge (Ne.symm hv)
    linarith
  · intro r hr
    have hne : xs.isEmpty = false := by
      by_contra h
      simp only [Bool.not_eq_false] at h
      simp [run_backtest, h] at hr
    have hsh : r.sharpe_ratio =
        sharpeBT ((btRun xs p cfg).hist.map HistEntry.value) := by
      simp only [run_backtest, hne, Bool.false_eq_true, if_false] at hr
      injection hr with hr
      rw [← hr]
    have hph : r.portfolio_history = (btRun xs p cfg).hist := by
      simp only [run_backtest, hne, Bool.false_eq_true, if_false] at hr
      injection hr with hr
      rw [← hr]
    obtain ⟨ha, hb, hc⟩ := hbt ((btRun xs p cfg).hist.map HistEntry.value)
    exact ⟨by rw [hsh]; exact ha, by rw [hsh]; exact hb,
      by rw [hsh, hph]; exact hc⟩

theorem sharpe_zero_volatility_guard_witness :
    sharpeRA [1, 2, 4] = PyFloat.rat 0 :=
  (sharpe_zero_volatility_guard [1, 2, 4] (by norm_num [pctChanges]) [] {} {}).1
    (by norm_num [sampleVar, listMean, pctChanges])

/-! ## Claim C4: behaviour on frames with fewer than 2 bars -/

/-- C4 counterexample: a one-bar frame whose RSI column reads 10 makes
the RSI sub-rule return BUY (strength 6, confidence 90), not the
claimed HOLD with confidence 50 and strength 5 — the sub-rules carry no
bar-count guard, only a column-presence guard. -/
theorem rsi_signal_one_bar_buy :
    generate_rsi_signal { close := [10], rsi := some [10] } "Moderate" =
      some ⟨Action.BUY, 6, 90, [RMsg.rsi_oversold]⟩ ∧
    (Frame.close { close := [10], rsi := some ([10] : List ℚ) }).length < 2 := by
  constructor
  · have hthr : rsiThresholds "Moderate" = ((30 : ℚ), (70 : ℚ)) := rfl
    have hiloc : ilocNeg [10] 1 = some (10 : ℚ) := rfl
    have hf1 : pytrunc ((20 : ℚ) / 3) = 6 := by
      rw [pytrunc_of_nonneg _ (by norm_num)]
      norm_num [Int.floor_eq_iff]
    have hf2 : pytrunc ((90 : ℚ)) = 90 := by
      rw [pytrunc_of_nonneg _ (by norm_num)]
      norm_num
    simp only [generate_rsi_signal, hiloc, hthr]
    norm_num [pymin]
    rw [hf1, hf2]
    constructor <;> simp [inf_eq_min, min_def]
  · norm_num

/-- C4 amended: on a frame with fewer than 2 bars that carries none of
the indicator columns, the RSI, MACD, moving-average and Bollinger
sub-rules and the composite return HOLD with confidence 50 and
strength 5 (with empty sub-rule reason lists), and the momentum
sub-rule does as well when the frame has exactly one bar; when
indicator columns are present there is no length guard — a one-bar
frame can yield BUY and the crossover sub-rules index out of range. -/
theorem short_frame_no_columns_hold (f : Frame) (sens : String)
    (_hlen : f.close.length < 2)
    (hrsi : f.rsi = none) (hmacd : f.macd = none) (_hmsig : f.macdSignal = none)
    (hs20 : f.sma20 = none) (_hs50 : f.sma50 = none)
    (hbu : f.bbUpper = none) (_hbl : f.bbLower = none)
    (hvr : f.volumeRatio = none) :
    generate_rsi_signal f sens = some ⟨Action.HOLD, 5, 50, []⟩ ∧
    generate_macd_signal f sens = some ⟨Action.HOLD, 5, 50, []⟩ ∧
    generate_ma_signal f sens = some ⟨Action.HOLD, 5, 50, []⟩ ∧
    generate_bb_signal f sens = some ⟨Action.HOLD, 5, 50, []⟩ ∧
    generate_composite_signal f sens =
      some ⟨Action.HOLD, 5, 50, [RMsg.no_clear_signal]⟩ ∧
    (f.close.length = 1 →
      generate_momentum_signal f sens = some ⟨Action.HOLD, 5, 50, [RMsg.mom_weak]⟩) := by
  have h1 : generate_rsi_signal f sens = some ⟨Action.HOLD, 5, 50, []⟩ := by
    simp [generate_rsi_signal, hrsi]
  have h2 : generate_macd_signal f sens = some ⟨Action.HOLD, 5, 50, []⟩ := by
    simp [generate_macd_signal, hmacd]
  have h3 : generate_ma_signal f sens = some ⟨Action.HOLD, 5, 50, []⟩ := by
    simp [generate_ma_signal, hs20]
  have h4 : generate_bb_signal f sens = some ⟨Action.HOLD, 5, 50, []⟩ := by
    simp [generate_bb_signal, hbu]
  refine ⟨h1, h2, h3, h4, ?_, ?_⟩
  · simp only [generate_composite_signal, h1, h2, h3, h4]
    norm_num
  · intro hone
    have hmr : momReturns f.close = some none := by
      unfold momReturns
      rw [if_neg (by omega), if_pos (by omega)]
    simp [generate_momentum_signal, hmr, hvr]

theorem short_frame_no_columns_hold_witness :
    generate_rsi_signal { close := [10] } "Moderate" = some ⟨Action.HOLD, 5, 50, []⟩ ∧
    generate_macd_signal { close := [10] } "Moderate" = some ⟨Action.HOLD, 5, 50, []⟩ ∧
    generate_ma_signal { close := [10] } "Moderate" = some ⟨Action.HOLD, 5, 50, []⟩ ∧
    generate_bb_signal { close := [10] } "Moderate" = some ⟨Action.HOLD, 5, 50, []⟩ ∧
    generate_composite_signal { close := [10] } "Moderate" =
      some ⟨Action.HOLD, 5, 50, [RMsg.no_clear_signal]⟩ ∧
    ((Frame.close { close := ([10] : List ℚ) }).length = 1 →
      generate_momentum_signal { close := [10] } "Moderate" =
        some ⟨Action.HOLD, 5, 50, [RMsg.mom_weak]⟩) :=
  short_frame_no_columns_hold { close := [10] } "Moderate" (by norm_num)
    rfl rfl rfl rfl rfl rfl rfl rfl

/-! ## Claim C7: strength and confidence bounds -/

/-- Well-formedness of an indicator frame as pandas guarantees it:
every present column is row-aligned with Close, at least two bars
exist, and all stored values are positive prices/levels. -/
def colOk (n : ℕ) : Option (List ℚ) → Prop
  | none => True
  | some col => col.length = n ∧ ∀ x ∈ col, 0 < x

def frameOk (f : Frame) : Prop :=
  2 ≤ f.close.length ∧ (∀ x ∈ f.close, 0 < x) ∧
  colOk f.close.length f.rsi ∧ colOk f.close.length f.macd ∧
  colOk f.close.length f.macdSignal ∧ colOk f.close.length f.sma20 ∧
  colOk f.close.length f.sma50 ∧ colOk f.close.length f.bbUpper ∧
  colOk f.close.length f.bbMiddle ∧ colOk f.close.length f.bbLower ∧
  colOk f.close.length f.volumeRatio ∧
  (f.bbUpper.isSome → f.bbLower.isSome → f.bbMiddle.isSome)

def sigBounded (s : Sig) : Prop :=
  0 ≤ s.strength ∧ s.strength ≤ 10 ∧ 0 ≤ s.confidence ∧ s.confidence ≤ 100

theorem ilocNeg_some (xs : List ℚ) (k : ℕ) (h1 : 1 ≤ k) (h2 : k ≤ xs.length) :
    ∃ r, ilocNeg xs k = some r ∧ r ∈ xs := by
  unfold ilocNeg
  rw [if_pos ⟨h1, h2⟩]
  have hlt : xs.length - k < xs.length := by omega
  rw [List.get?_eq_getElem?, List.getElem?_eq_getElem hlt]
  exact ⟨_, rfl, List.getElem_mem hlt⟩

theorem pymin_trunc_lb (c : ℤ) (q : ℚ) (hq : 0 ≤ q) (hc : 0 ≤ c) :
    0 ≤ pymin c (pytrunc q) := by
  unfold pymin
  exact le_min hc (pytrunc_nonneg q hq)

theorem pymin_trunc_ub (c : ℤ) (z : ℤ) : pymin c z ≤ c := by
  unfold pymin
  exact min_le_left _ _

theorem rsi_signal_bounds (f : Frame) (sens : String) (h : frameOk f) :
    ∃ s, generate_rsi_signal f sens = some s ∧ sigBounded s := by
  obtain ⟨hlen, _, hrsi, _⟩ := h
  unfold generate_rsi_signal
  cases hcol : f.rsi with
  | none => exact ⟨_, rfl, by norm_num [sigBounded]⟩
  | some col =>
    rw [hcol] at hrsi
    obtain ⟨hcl, _⟩ := hrsi
    obtain ⟨r, hr, _⟩ := ilocNeg_some col 1 (by norm_num) (by omega)
    dsimp only
    rw [hr]
    dsimp only
    by_cases hb : r < (rsiThresholds sens).1
    · rw [if_pos hb]
      refine ⟨_, rfl, ?_, ?_, ?_, ?_⟩
      · exact pymin_trunc_lb _ _ (div_nonneg (by linarith) (by norm_num)) (by norm_num)
      · exact pymin_trunc_ub _ _
      · exact pymin_trunc_lb _ _ (by linarith) (by norm_num)
      · exact le_trans (pymin_trunc_ub _ _) (by norm_num)
    · rw [if_neg hb]
      by_cases hs : (rsiThresholds sens).2 < r
      · rw [if_pos hs]
        refine ⟨_, rfl, ?_, ?_, ?_, ?_⟩
        · exact pymin_trunc_lb _ _ (div_nonneg (by linarith) (by norm_num)) (by norm_num)
        · exact pymin_trunc_ub _ _
        · exact pymin_trunc_lb _ _ (by linarith) (by norm_num)
        · exact le_trans (pymin_trunc_ub _ _) (by norm_num)
      · rw [if_neg hs]
        exact ⟨_, rfl, by norm_num [sigBounded]⟩

theorem macd_strength_lb (d : ℚ) : 0 ≤ pymin 10 (pytrunc (|d| * 10)) :=
  pymin_trunc_lb _ _ (by positivity) (by norm_num)

theorem macd_conf_lb (d : ℚ) : 0 ≤ pymin 90 (pytrunc (65 + |d| * 20)) :=
  pymin_trunc_lb _ _ (by positivity) (by norm_num)

theorem macd_conf_ub (d : ℚ) : pymin 90 (pytrunc (65 + |d| * 20)) ≤ 100 :=
  le_trans (pymin_trunc_ub _ _) (by norm_num)

theorem macd_signal_bounds (f : Frame) (sens : String) (h : frameOk f) :
    ∃ s, generate_macd_signal f sens = some s ∧ sigBounded s := by
  obtain ⟨hlen, _, _, hmacd, hmsig, _⟩ := h
  unfold generate_macd_signal
  cases hcm : f.macd with
  | none => exact ⟨_, rfl, by norm_num [sigBounded]⟩
  | some mcol =>
    cases hcs : f.macdSignal with
    | none => exact ⟨_, rfl, by norm_num [sigBounded]⟩
    | some scol =>
      rw [hcm] at hmacd
      rw [hcs] at hmsig
      obtain ⟨hml, _⟩ := hmacd
      obtain ⟨hsl, _⟩ := hmsig
      obtain ⟨m1, h1, _⟩ := ilocNeg_some mcol 1 (by norm_num) (by omega)
      obtain ⟨g1, h2, _⟩ := ilocNeg_some scol 1 (by norm_num) (by omega)
      obtain ⟨m0, h3, _⟩ := ilocNeg_some mcol 2 (by norm_num) (by omega)
      obtain ⟨g0, h4, _⟩ := ilocNeg_some scol 2 (by norm_num) (by omega)
      dsimp only
      rw [h1, h2, h3, h4]
      dsimp only
      split_ifs with hA hB hC hD
      · exact ⟨_, rfl, macd_strength_lb _, pymin_trunc_ub _ _, macd_conf_lb _,
          macd_conf_ub _⟩
      · exact ⟨_, rfl, macd_strength_lb _, pymin_trunc_ub _ _, macd_conf_lb _,
          macd_conf_ub _⟩
      · exact ⟨_, rfl, by norm_num, by norm_num, by norm_num, by norm_num⟩
      · exact ⟨_, rfl, by norm_num, by norm_num, by norm_num, by norm_num⟩
      · exact ⟨_, rfl, by norm_num, by norm_num, by norm_num, by norm_num⟩

theorem ma_signal_bounds (f : Frame) (sens : String) (h : frameOk f) :
    ∃ s, generate_ma_signal f sens = some s ∧ sigBounded s := by
  obtain ⟨hlen, _, _, _, _, hs20, hs50, _⟩ := h
  unfold generate_ma_signal
  cases hc20 : f.sma20 with
  | none => exact ⟨_, rfl, by norm_num [sigBounded]⟩
  | some c20 =>
    cases hc50 : f.sma50 with
    | none => exact ⟨_, rfl, by norm_num [sigBounded]⟩
    | some c50 =>
      rw [hc20] at hs20
      rw [hc50] at hs50
      obtain ⟨hl20, _⟩ := hs20
      obtain ⟨hl50, _⟩ := hs50
      obtain ⟨a1, h1, _⟩ := ilocNeg_some c20 1 (by norm_num) (by omega)
      obtain ⟨b1, h2, _⟩ := ilocNeg_some c50 1 (by norm_num) (by omega)
      obtain ⟨a0, h3, _⟩ := ilocNeg_some c20 2 (by norm_num) (by omega)
      obtain ⟨b0, h4, _⟩ := ilocNeg_some c50 2 (by norm_num) (by omega)
      obtain ⟨px, h5, _⟩ := ilocNeg_some f.close 1 (by norm_num) (by omega)
      dsimp only
      rw [h1, h2, h3, h4, h5]
      dsimp only
      split_ifs <;> exact ⟨_, rfl, by norm_num [sigBounded]⟩

theorem bb_signal_bounds (f : Frame) (sens : String) (h : frameOk f) :
    ∃ s, generate_bb_signal f sens = some s ∧ sigBounded s := by
  obtain ⟨hlen, hclose, _, _, _, _, _, hbu, hbm, hbl, _, hmid⟩ := h
  unfold generate_bb_signal
  cases hcu : f.bbUpper with
  | none => exact ⟨_, rfl, by norm_num [sigBounded]⟩
  | some ucol =>
    cases hcl : f.bbLower with
    | none => exact ⟨_, rfl, by norm_num [sigBounded]⟩
    | some lcol =>
      rw [hcu] at hbu
      rw [hcl] at hbl
      obtain ⟨hul, hupos⟩ := hbu
      obtain ⟨hll, hlpos⟩ := hbl
      have hmid2 : f.bbMiddle.isSome := by
        apply hmid <;> simp [hcu, hcl]
      obtain ⟨mcol, hcmid⟩ := Option.isSome_iff_exists.mp hmid2
      rw [hcmid] at hbm
      obtain ⟨hml, _⟩ := hbm
      obtain ⟨px, h1, hpxm⟩ := ilocNeg_some f.close 1 (by norm_num) (by omega)
      obtain ⟨bu, h2, hbum⟩ := ilocNeg_some ucol 1 (by norm_num) (by omega)
      obtain ⟨bl, h3, hblm⟩ := ilocNeg_some lcol 1 (by norm_num) (by omega)
      obtain ⟨bm, h4, _⟩ := ilocNeg_some mcol 1 (by norm_num) (by omega)
      have hpx : 0 < px := hclose px hpxm
      have hbu0 : 0 < bu := hupos bu hbum
      have hbl0 : 0 < bl := hlpos bl hblm
      dsimp only
      rw [h1, h2, h3]
      dsimp only
      rw [hcmid]
      dsimp only
      rw [h4]
      dsimp only
      by_cases hlo : px < bl
      · rw [if_pos hlo]
        exact ⟨_, rfl,
          pymin_trunc_lb _ _
            (mul_nonneg (div_nonneg (by linarith) (by linarith)) (by norm_num))
            (by norm_num),
          pymin_trunc_ub _ _, by norm_num, by norm_num⟩
      · rw [if_neg hlo]
        by_cases hhi : bu < px
        · rw [if_pos hhi]
          exact ⟨_, rfl,
            pymin_trunc_lb _ _
              (mul_nonneg (div_nonneg (by linarith) (by linarith)) (by norm_num))
              (by norm_num),
            pymin_trunc_ub _ _, by norm_num, by norm_num⟩
        · rw [if_neg hhi]
          exact ⟨_, rfl, by norm_num [sigBounded]⟩

theorem momentum_signal_bounds (f : Frame) (sens : String) (h : frameOk f) :
    ∃ s, generate_momentum_signal f sens = some s ∧ sigBounded s := by
  obtain ⟨hlen, _, _, _, _, _, _, _, _, _, hvr, _⟩ := h
  have hmr : ∃ o, momReturns f.close = some o := by
    unfold momReturns
    rw [if_neg (by omega)]
    by_cases h6 : f.close.length < 6
    · rw [if_pos h6]
      exact ⟨none, rfl⟩
    · rw [if_neg h6]
      obtain ⟨a, ha, _⟩ := ilocNeg_some f.close 1 (by norm_num) (by omega)
      obtain ⟨b, hb, _⟩ := ilocNeg_some f.close 6 (by norm_num) (by omega)
      rw [ha, hb]
      exact ⟨_, rfl⟩
  obtain ⟨o, ho⟩ := hmr
  unfold generate_momentum_signal
  rw [ho]
  dsimp only
  have hvo : ∃ vr, (match f.volumeRatio with
      | none => some (1 : ℚ)
      | some vcol => ilocNeg vcol 1) = some vr := by
    cases hcv : f.volumeRatio with
    | none => exact ⟨1, rfl⟩
    | some vcol =>
      rw [hcv] at hvr
      obtain ⟨hvl, _⟩ := hvr
      obtain ⟨v, hv, _⟩ := ilocNeg_some vcol 1 (by norm_num) (by omega)
      exact ⟨v, hv⟩
  obtain ⟨vr, hvr2⟩ := hvo
  rw [hvr2]
  dsimp only
  cases o with
  | none => exact ⟨_, rfl, by norm_num [sigBounded]⟩
  | some r =>
    dsimp only
    split_ifs <;> exact ⟨_, rfl, by norm_num [sigBounded]⟩

theorem comp_lb15 (q : ℚ) (hq : 0 ≤ q) : 0 ≤ pymin 10 (pytrunc (q * 15)) :=
  pymin_trunc_lb _ _ (by positivity) (by norm_num)

theorem comp_lb100 (q : ℚ) (hq : 0 ≤ q) : 0 ≤ pymin 95 (pytrunc (q * 100)) :=
  pymin_trunc_lb _ _ (by positivity) (by norm_num)

theorem comp_ub95 (q : ℚ) : pymin 95 (pytrunc (q * 100)) ≤ 100 :=
  le_trans (pymin_trunc_ub _ _) (by norm_num)

theorem pick_bounds (bs ss : ℚ) (hbs : 0 ≤ bs) (hss : 0 ≤ ss) :
    0 ≤ (if ss < bs ∧ 2/5 < bs then
        (Action.BUY, pymin 10 (pytrunc (bs * 15)), pymin 95 (pytrunc (bs * 100)))
      else if bs < ss ∧ 2/5 < ss then
        (Action.SELL, pymin 10 (pytrunc (ss * 15)), pymin 95 (pytrunc (ss * 100)))
      else ((Action.HOLD : Action), (5 : ℤ), (50 : ℤ))).2.1 ∧
    (if ss < bs ∧ 2/5 < bs then
        (Action.BUY, pymin 10 (pytrunc (bs * 15)), pymin 95 (pytrunc (bs * 100)))
      else if bs < ss ∧ 2/5 < ss then
        (Action.SELL, pymin 10 (pytrunc (ss * 15)), pymin 95 (pytrunc (ss * 100)))
      else ((Action.HOLD : Action), (5 : ℤ), (50 : ℤ))).2.1 ≤ 10 ∧
    0 ≤ (if ss < bs ∧ 2/5 < bs then
        (Action.BUY, pymin 10 (pytrunc (bs * 15)), pymin 95 (pytrunc (bs * 100)))
      else if bs < ss ∧ 2/5 < ss then
        (Action.SELL, pymin 10 (pytrunc (ss * 15)), pymin 95 (pytrunc (ss * 100)))
      else ((Action.HOLD : Action), (5 : ℤ), (50 : ℤ))).2.2 ∧
    (if ss < bs ∧ 2/5 < bs then
        (Action.BUY, pymin 10 (pytrunc (bs * 15)), pymin 95 (pytrunc (bs * 100)))
      else if bs < ss ∧ 2/5 < ss then
        (Action.SELL, pymin 10 (pytrunc (ss * 15)), pymin 95 (pytrunc (ss * 100)))
      else ((Action.HOLD : Action), (5 : ℤ), (50 : ℤ))).2.2 ≤ 100 := by
  split_ifs
  · exact ⟨comp_lb15 _ hbs, pymin_trunc_ub _ _, comp_lb100 _ hbs, comp_ub95 _⟩
  · exact ⟨comp_lb15 _ hss, pymin_trunc_ub _ _, comp_lb100 _ hss, comp_ub95 _⟩
  · exact ⟨by norm_num, by norm_num, by norm_num, by norm_num⟩

theorem composite_signal_bounds (f : Frame) (sens : String) (h : frameOk f) :
    ∃ s, generate_composite_signal f sens = some s ∧ sigBounded s := by
  obtain ⟨r, hr, _⟩ := rsi_signal_bounds f sens h
  obtain ⟨m, hm, _⟩ := macd_signal_bounds f sens h
  obtain ⟨a, ha, _⟩ := ma_signal_bounds f sens h
  obtain ⟨b, hb, _⟩ := bb_signal_bounds f sens h
  unfold generate_composite_signal
  rw [hr, hm, ha, hb]
  dsimp only
  by_cases he : (([r, m, a, b].filter (fun s => s.signal ≠ Action.HOLD)).isEmpty)
  · rw [if_pos he]
    exact ⟨_, rfl, by norm_num [sigBounded]⟩
  · rw [if_neg he]
    refine ⟨_, rfl, ?_⟩
    exact pick_bounds _ _ (by positivity) (by positivity)

/-- C7 counterexample: with an RSI of 29 (just under the oversold
threshold 30) the RSI strategy returns a BUY signal of strength 0 —
`int((30-29)/3) = 0` — refuting the claimed lower bound of 1 on
strength. -/
theorem rsi_strategy_strength_zero :
    generate_signal { close := [30, 29], rsi := some [50, 29] }
      "RSI Strategy" "Moderate" =
      some ⟨Action.BUY, 0, 71, [RMsg.rsi_oversold]⟩ ∧
    2 ≤ (Frame.close { close := ([30, 29] : List ℚ), rsi := some [50, 29] }).length := by
  constructor
  · have hd : generate_signal { close := [30, 29], rsi := some [50, 29] }
        "RSI Strategy" "Moderate" =
        generate_rsi_signal { close := [30, 29], rsi := some [50, 29] } "Moderate" := rfl
    rw [hd]
    have hthr : rsiThresholds "Moderate" = ((30 : ℚ), (70 : ℚ)) := rfl
    have hiloc : ilocNeg [50, 29] 1 = some (29 : ℚ) := rfl
    have hf1 : pytrunc ((1 : ℚ) / 3) = 0 := by
      rw [pytrunc_of_nonneg _ (by norm_num)]
      norm_num [Int.floor_eq_iff]
    have hf2 : pytrunc ((71 : ℚ)) = 71 := by
      rw [pytrunc_of_nonneg _ (by norm_num)]
      norm_num
    simp only [generate_rsi_signal, hiloc, hthr]
    norm_num [pymin]
    rw [hf1, hf2]
    constructor <;> simp [inf_eq_min, min_def]
  · norm_num

/-- C7 amended: for every well-formed frame (at least 2 bars, columns
row-aligned, positive prices and indicator levels, and a middle band
present whenever both outer bands are), every strategy identifier and
every sensitivity, `generate_signal` returns a signal with strength in
[0, 10] and confidence in [0, 100]; the lower strength bound 1 of the
original claim fails (strength 0 occurs). -/
theorem generate_signal_bounds (f : Frame) (strategy sens : String)
    (h : frameOk f) :
    ∃ s, generate_signal f strategy sens = some s ∧
      0 ≤ s.strength ∧ s.strength ≤ 10 ∧
      0 ≤ s.confidence ∧ s.confidence ≤ 100 := by
  unfold generate_signal
  split_ifs
  · exact composite_signal_bounds f sens h
  · exact rsi_signal_bounds f sens h
  · exact macd_signal_bounds f sens h
  · exact ma_signal_bounds f sens h
  · exact bb_signal_bounds f sens h
  · exact momentum_signal_bounds f sens h
  · exact composite_signal_bounds f sens h

theorem generate_signal_bounds_witness :
    ∃ s, generate_signal { close := [10, 10] } "AI Composite" "Moderate" = some s ∧
      0 ≤ s.strength ∧ s.strength ≤ 10 ∧
      0 ≤ s.confidence ∧ s.confidence ≤ 100 :=
  generate_signal_bounds { close := [10, 10] } "AI Composite" "Moderate"
    (by
      refine ⟨by norm_num, ?_, trivial, trivial, trivial, trivial, trivial,
        trivial, trivial, trivial, trivial, by simp⟩
      decide)

/-! ## Claim C1: the clean golden-cross / death-cross backtest -/

/-- A golden cross of the 20-bar over the 50-bar SMA at bar `i`,
exactly as the ma_crossover backtest rule tests it. -/
def crossUpB (xs : List ℚ) (i : ℕ) : Bool :=
  oltB (smaAt 50 xs i) (smaAt 20 xs i) && oleB (smaAt 20 xs (i - 1)) (smaAt 50 xs (i - 1))

/-- A death cross of the 20-bar under the 50-bar SMA at bar `i`. -/
def crossDownB (xs : List ℚ) (i : ℕ) : Bool :=
  oltB (smaAt 20 xs i) (smaAt 50 xs i) && oleB (smaAt 50 xs (i - 1)) (smaAt 20 xs (i - 1))

theorem oltB_none_left (b : Option ℚ) : oltB none b = false := by cases b <;> rfl

theorem oltB_none_right (a : Option ℚ) : oltB a none = false := by cases a <;> rfl

theorem smaAt_take (w : ℕ) (xs : List ℚ) (i j : ℕ) (hj : j ≤ i) (hi : i < xs.length) :
    smaAt w (xs.take (i + 1)) j = smaAt w xs j := by
  unfold smaAt
  have hlen : (xs.take (i + 1)).length = i + 1 := by
    simp [List.length_take]
    omega
  rw [hlen]
  by_cases hw : 1 ≤ w ∧ w ≤ j + 1
  · rw [if_pos ⟨hw.1, hw.2, by omega⟩, if_pos ⟨hw.1, hw.2, by omega⟩]
    congr 2
    rw [List.drop_take, List.take_take]
    have hmin : min w (i + 1 - (j + 1 - w)) = w := by omega
    rw [show w ⊓ (i + 1 - (j + 1 - w)) = w from hmin]
  · rw [if_neg (by tauto), if_neg (by tauto)]

theorem btSignal_ma_window (xs : List ℚ) (i : ℕ) (h1 : 1 ≤ i) (hi : i < xs.length) :
    btSignal (xs.take (i + 1)) {} =
      (if crossUpB xs i then Action.BUY
       else if crossDownB xs i then Action.SELL
       else Action.HOLD) := by
  have hlen : (xs.take (i + 1)).length = i + 1 := by
    simp [List.length_take]
    omega
  unfold btSignal
  rw [hlen]
  by_cases h50 : i + 1 < 50
  · rw [if_pos h50]
    have hs : smaAt 50 xs i = none := by
      unfold smaAt
      rw [if_neg (by omega)]
    rw [show crossUpB xs i = false by
        unfold crossUpB
        rw [hs, oltB_none_left, Bool.false_and],
      show crossDownB xs i = false by
        unfold crossDownB
        rw [hs, oltB_none_right, Bool.false_and]]
    norm_num
  · rw [if_neg h50]
    have htype : ({} : StratParams).type = "ma_crossover" := rfl
    rw [if_pos htype, if_neg (show ¬ i + 1 < ({} : StratParams).long_window from h50)]
    have e1 : i + 1 - 1 = i := by omega
    have e2 : i + 1 - 2 = i - 1 := by omega
    rw [e1, e2]
    rw [smaAt_take _ xs i i le_rfl hi, smaAt_take _ xs i i le_rfl hi,
      smaAt_take _ xs i (i - 1) (by omega) hi, smaAt_take _ xs i (i - 1) (by omega) hi]
    rfl

theorem btStep_buy (xs : List ℚ) (p : StratParams) (cfg : BtConfig) (st : BtSt)
    (i : ℕ) (hsig : btSignal (xs.take (i + 1)) p = Action.BUY)
    (hsh : st.shares = 0) (hlt : xs.getD i 0 < st.cash)
    (hms : 0 < pytrunc (st.cash * cfg.position_size / xs.getD i 0)) :
    (btStep xs p cfg st i).shares =
      pytrunc (st.cash * cfg.position_size / xs.getD i 0) ∧
    (btStep xs p cfg st i).trades = st.trades ++
      [⟨i, Action.BUY, xs.getD i 0,
        pytrunc (st.cash * cfg.position_size / xs.getD i 0),
        (pytrunc (st.cash * cfg.position_size / xs.getD i 0) : ℚ) * xs.getD i 0,
        cfg.commission⟩] := by
  unfold btStep
  rw [hsig, if_pos ⟨rfl, hsh, hlt⟩, if_pos hms]
  exact ⟨rfl, rfl⟩

theorem btStep_sell (xs : List ℚ) (p : StratParams) (cfg : BtConfig) (st : BtSt)
    (i : ℕ) (hsig : btSignal (xs.take (i + 1)) p = Action.SELL)
    (hsh : 0 < st.shares) :
    (btStep xs p cfg st i).shares = 0 ∧
    (btStep xs p cfg st i).trades = st.trades ++
      [⟨i, Action.SELL, xs.getD i 0, st.shares,
        (st.shares : ℚ) * xs.getD i 0, cfg.commission⟩] := by
  unfold btStep
  rw [hsig, if_neg (by simp), if_pos ⟨rfl, hsh⟩]
  exact ⟨rfl, rfl⟩

set_option maxRecDepth 4000 in
/-- The full trace of the clean golden-cross / death-cross backtest,
shared by the C1 artifacts below. -/
theorem ma_crossover_trace (xs : List ℚ) (h252 : xs.length = 252)
    (hpos : ∀ x ∈ xs, 0 < x)
    (hcap : xs.getD 100 0 < 10000)
    (hup : ∀ i, 1 ≤ i → i ≤ 251 → (crossUpB xs i = true ↔ i = 100))
    (hdn : ∀ i, 1 ≤ i → i ≤ 251 → (crossDownB xs i = true ↔ i = 200)) :
    ∃ r, run_backtest xs {} ⟨10000, 1, 1⟩ = some r ∧
      r.trades = [
        ⟨100, Action.BUY, xs.getD 100 0, ⌊(10000 : ℚ) / xs.getD 100 0⌋,
          (⌊(10000 : ℚ) / xs.getD 100 0⌋ : ℤ) * xs.getD 100 0, 1⟩,
        ⟨200, Action.SELL, xs.getD 200 0, ⌊(10000 : ℚ) / xs.getD 100 0⌋,
          (⌊(10000 : ℚ) / xs.getD 100 0⌋ : ℤ) * xs.getD 200 0, 1⟩] ∧
      1 ≤ ⌊(10000 : ℚ) / xs.getD 100 0⌋ ∧
      r.total_trades = 2 := by
  have hc1pos : 0 < xs.getD 100 0 := by
    have h100 : (100 : ℕ) < xs.length := by omega
    have hg : xs.getD 100 0 = xs[100] := by
      simp [List.getD_eq_getElem?_getD, List.getElem?_eq_getElem h100]
    rw [hg]
    exact hpos _ (List.getElem_mem h100)
  have hsig : ∀ i, 1 ≤ i → i ≤ 251 →
      btSignal (xs.take (i + 1)) {} =
        (if i = 100 then Action.BUY
         else if i = 200 then Action.SELL else Action.HOLD) := by
    intro i hi1 hi2
    rw [btSignal_ma_window xs i hi1 (by omega)]
    cases hcu : crossUpB xs i with
    | true =>
      have h100 := (hup i hi1 hi2).mp hcu
      simp [h100]
    | false =>
      cases hcd : crossDownB xs i with
      | true =>
        have h200 := (hdn i hi1 hi2).mp hcd
        have hne : i ≠ 100 := by omega
        simp [h200]
      | false =>
        have hne1 : i ≠ 100 := by
          intro h
          have := (hup i hi1 hi2).mpr h
          rw [hcu] at this
          exact Bool.noConfusion this
        have hne2 : i ≠ 200 := by
          intro h
          have := (hdn i hi1 hi2).mpr h
          rw [hcd] at this
          exact Bool.noConfusion this
        simp [hne1, hne2]
  have hsplit : List.range' 1 251 =
      List.range' 1 99 ++ 100 :: (List.range' 101 99 ++ 200 :: List.range' 201 51) := by
    decide
  have hA : ∀ i ∈ List.range' 1 99,
      btSignal (xs.take (i + 1)) ({} : StratParams) = Action.HOLD := by
    intro i hi
    rw [List.mem_range'] at hi
    obtain ⟨k, hk, rfl⟩ := hi
    rw [hsig _ (by omega) (by omega), if_neg (by omega), if_neg (by omega)]
  have hB : ∀ i ∈ List.range' 101 99,
      btSignal (xs.take (i + 1)) ({} : StratParams) = Action.HOLD := by
    intro i hi
    rw [List.mem_range'] at hi
    obtain ⟨k, hk, rfl⟩ := hi
    rw [hsig _ (by omega) (by omega), if_neg (by omega), if_neg (by omega)]
  have hC : ∀ i ∈ List.range' 201 51,
      btSignal (xs.take (i + 1)) ({} : StratParams) = Action.HOLD := by
    intro i hi
    rw [List.mem_range'] at hi
    obtain ⟨k, hk, rfl⟩ := hi
    rw [hsig _ (by omega) (by omega), if_neg (by omega), if_neg (by omega)]
  have hsig100 : btSignal (xs.take (100 + 1)) ({} : StratParams) = Action.BUY := by
    have := hsig 100 (by norm_num) (by norm_num)
    simpa using this
  have hsig200 : btSignal (xs.take (200 + 1)) ({} : StratParams) = Action.SELL := by
    have := hsig 200 (by norm_num) (by norm_num)
    simpa using this
  have hs1 : 1 ≤ ⌊(10000 : ℚ) / xs.getD 100 0⌋ := by
    rw [Int.le_floor]
    rw [show ((1 : ℤ) : ℚ) = 1 by norm_num]
    rw [le_div_iff₀ hc1pos]
    linarith
  -- the run, decomposed along the five segments
  have hrun : btRun xs {} ⟨10000, 1, 1⟩ =
      (List.range' 201 51).foldl (btStep xs {} ⟨10000, 1, 1⟩)
        (btStep xs {} ⟨10000, 1, 1⟩
          ((List.range' 101 99).foldl (btStep xs {} ⟨10000, 1, 1⟩)
            (btStep xs {} ⟨10000, 1, 1⟩
              ((List.range' 1 99).foldl (btStep xs {} ⟨10000, 1, 1⟩)
                ⟨10000, 0, [], []⟩)
              100))
          200) := by
    rw [btRun, show xs.length - 1 = 251 by omega, hsplit]
    simp only [List.foldl_append, List.foldl_cons]
  obtain ⟨hAc, hAs, hAt⟩ := btFold_hold xs {} ⟨10000, 1, 1⟩ (List.range' 1 99)
    ⟨10000, 0, [], []⟩ hA
  -- the BUY step at bar 100
  have hpt : pytrunc
      (((List.range' 1 99).foldl (btStep xs {} ⟨10000, 1, 1⟩) ⟨10000, 0, [], []⟩).cash
        * (⟨10000, 1, 1⟩ : BtConfig).position_size / xs.getD 100 0)
      = ⌊(10000 : ℚ) / xs.getD 100 0⌋ := by
    rw [hAc]
    show pytrunc ((10000 : ℚ) * 1 / xs.getD 100 0) = _
    rw [mul_one, pytrunc_of_nonneg _ (by positivity)]
  obtain ⟨hBs, hBt⟩ := btStep_buy xs {} ⟨10000, 1, 1⟩
    ((List.range' 1 99).foldl (btStep xs {} ⟨10000, 1, 1⟩) ⟨10000, 0, [], []⟩)
    100 hsig100 hAs (by rw [hAc]; exact hcap) (by rw [hpt]; omega)
  rw [hpt] at hBs
  rw [hAt, hpt] at hBt
  obtain ⟨hBc2, hBs2, hBt2⟩ := btFold_hold xs {} ⟨10000, 1, 1⟩ (List.range' 101 99)
    (btStep xs {} ⟨10000, 1, 1⟩
      ((List.range' 1 99).foldl (btStep xs {} ⟨10000, 1, 1⟩) ⟨10000, 0, [], []⟩)
      100) hB
  rw [hBs] at hBs2
  rw [hBt] at hBt2
  -- the SELL step at bar 200
  obtain ⟨hCs0, hCt0⟩ := btStep_sell xs {} ⟨10000, 1, 1⟩
    ((List.range' 101 99).foldl (btStep xs {} ⟨10000, 1, 1⟩)
      (btStep xs {} ⟨10000, 1, 1⟩
        ((List.range' 1 99).foldl (btStep xs {} ⟨10000, 1, 1⟩) ⟨10000, 0, [], []⟩)
        100))
    200 hsig200 (by rw [hBs2]; omega)
  rw [hBs2, hBt2] at hCt0
  have hfields2 :
      (btStep xs {} ⟨10000, 1, 1⟩
        ((List.range' 101 99).foldl (btStep xs {} ⟨10000, 1, 1⟩)
          (btStep xs {} ⟨10000, 1, 1⟩
            ((List.range' 1 99).foldl (btStep xs {} ⟨10000, 1, 1⟩) ⟨10000, 0, [], []⟩)
            100))
        200).trades =
        [⟨100, Action.BUY, xs.getD 100 0, ⌊(10000 : ℚ) / xs.getD 100 0⌋,
          (⌊(10000 : ℚ) / xs.getD 100 0⌋ : ℤ) * xs.getD 100 0, 1⟩,
         ⟨200, Action.SELL, xs.getD 200 0, ⌊(10000 : ℚ) / xs.getD 100 0⌋,
          (⌊(10000 : ℚ) / xs.getD 100 0⌋ : ℤ) * xs.getD 200 0, 1⟩] := by
    rw [hCt0]
    rfl
  obtain ⟨hCc, hCs, hCt⟩ := btFold_hold xs {} ⟨10000, 1, 1⟩ (List.range' 201 51)
    (btStep xs {} ⟨10000, 1, 1⟩
      ((List.range' 101 99).foldl (btStep xs {} ⟨10000, 1, 1⟩)
        (btStep xs {} ⟨10000, 1, 1⟩
          ((List.range' 1 99).foldl (btStep xs {} ⟨10000, 1, 1⟩) ⟨10000, 0, [], []⟩)
          100))
      200) hC
  have htr : (btRun xs {} ⟨10000, 1, 1⟩).trades =
      [⟨100, Action.BUY, xs.getD 100 0, ⌊(10000 : ℚ) / xs.getD 100 0⌋,
        (⌊(10000 : ℚ) / xs.getD 100 0⌋ : ℤ) * xs.getD 100 0, 1⟩,
       ⟨200, Action.SELL, xs.getD 200 0, ⌊(10000 : ℚ) / xs.getD 100 0⌋,
        (⌊(10000 : ℚ) / xs.getD 100 0⌋ : ℤ) * xs.getD 200 0, 1⟩] := by
    rw [hrun, hCt, hfields2]
  have hne : xs.isEmpty = false := by
    cases xs with
    | nil => simp at h252
    | cons a l => rfl
  have hr : run_backtest xs {} ⟨10000, 1, 1⟩ = some
      { initial_capital := (10000 : ℚ)
        final_value := (btRun xs {} ⟨10000, 1, 1⟩).cash +
          (btRun xs {} ⟨10000, 1, 1⟩).shares * xs.getLastD 0
        total_return := ((btRun xs {} ⟨10000, 1, 1⟩).cash +
          (btRun xs {} ⟨10000, 1, 1⟩).shares * xs.getLastD 0 - 10000) / 10000 * 100
        total_trades := (btRun xs {} ⟨10000, 1, 1⟩).trades.length
        sharpe_ratio := sharpeBT ((btRun xs {} ⟨10000, 1, 1⟩).hist.map HistEntry.value)
        trades := (btRun xs {} ⟨10000, 1, 1⟩).trades
        portfolio_history := (btRun xs {} ⟨10000, 1, 1⟩).hist } := by
    simp only [run_backtest, hne, Bool.false_eq_true, if_false]
  refine ⟨_, hr, ?_, hs1, ?_⟩
  · exact htr
  · show (btRun xs {} ⟨10000, 1, 1⟩).trades.length = 2
    rw [htr]
    rfl

/-- A concrete 252-bar price series: 100 bars at 10, 100 bars at 20,
52 bars at 10.  Its 20/50-bar SMAs produce exactly one golden cross at
bar 100 and one death cross at bar 200. -/
def xs252 : List ℚ :=
  List.replicate 100 10 ++ List.replicate 100 20 ++ List.replicate 52 10

set_option maxRecDepth 100000 in
set_option maxHeartbeats 4000000 in
theorem xs252_crossUp : ∀ i, i < 252 → 1 ≤ i → (crossUpB xs252 i = true ↔ i = 100) := by
  with_unfolding_all decide

set_option maxRecDepth 100000 in
set_option maxHeartbeats 4000000 in
theorem xs252_crossDown : ∀ i, i < 252 → 1 ≤ i → (crossDownB xs252 i = true ↔ i = 200) := by
  with_unfolding_all decide

set_option maxRecDepth 100000 in
theorem xs252_pos : ∀ x ∈ xs252, 0 < x := by
  with_unfolding_all decide

set_option maxRecDepth 100000 in
theorem xs252_len : xs252.length = 252 := by
  with_unfolding_all decide

set_option maxRecDepth 100000 in
theorem xs252_cap : xs252.getD 100 0 < 10000 := by
  with_unfolding_all decide

/-- C1 counterexample: the concrete series `xs252` satisfies the
claimed scenario (one golden cross at bar 100, one death cross at bar
200, positive closes below the capital), yet the returned report has
`total_trades = 2`, not 1 — the code counts the BUY record and the
SELL record separately. -/
theorem ma_crossover_total_trades_is_two :
    (∀ i, i < 252 → 1 ≤ i → (crossUpB xs252 i = true ↔ i = 100)) ∧
    (∀ i, i < 252 → 1 ≤ i → (crossDownB xs252 i = true ↔ i = 200)) ∧
    ∃ r, run_backtest xs252 {} ⟨10000, 1, 1⟩ = some r ∧
      r.total_trades = 2 ∧ ¬ r.total_trades = 1 := by
  obtain ⟨r, hr, _, _, htt⟩ := ma_crossover_trace xs252 xs252_len xs252_pos xs252_cap
    (fun i h1 h2 => xs252_crossUp i (by omega) h1)
    (fun i h1 h2 => xs252_crossDown i (by omega) h1)
  exact ⟨xs252_crossUp, xs252_crossDown, r, hr, htt, by omega⟩

/-- C1 amended: on a 252-bar positive price series whose 20/50 SMAs
cross up exactly at bar 100 and down exactly at bar 200, with
initial_capital 10000, position 100 percent and commission 1, the
backtest executes exactly one BUY at the bar-100 close and one SELL of
the same lot at the bar-200 close — but `total_trades` counts both
ledger entries, so it equals 2, not the claimed 1. -/
theorem ma_crossover_two_trades (xs : List ℚ) (h252 : xs.length = 252)
    (hpos : ∀ x ∈ xs, 0 < x)
    (hcap : xs.getD 100 0 < 10000)
    (hup : ∀ i, 1 ≤ i → i ≤ 251 → (crossUpB xs i = true ↔ i = 100))
    (hdn : ∀ i, 1 ≤ i → i ≤ 251 → (crossDownB xs i = true ↔ i = 200)) :
    ∃ r, run_backtest xs {} ⟨10000, 1, 1⟩ = some r ∧
      r.trades = [
        ⟨100, Action.BUY, xs.getD 100 0, ⌊(10000 : ℚ) / xs.getD 100 0⌋,
          (⌊(10000 : ℚ) / xs.getD 100 0⌋ : ℤ) * xs.getD 100 0, 1⟩,
        ⟨200, Action.SELL, xs.getD 200 0, ⌊(10000 : ℚ) / xs.getD 100 0⌋,
          (⌊(10000 : ℚ) / xs.getD 100 0⌋ : ℤ) * xs.getD 200 0, 1⟩] ∧
      1 ≤ ⌊(10000 : ℚ) / xs.getD 100 0⌋ ∧
      r.total_trades = 2 :=
  ma_crossover_trace xs h252 hpos hcap hup hdn

theorem ma_crossover_two_trades_witness :
    ∃ r, run_backtest xs252 {} ⟨10000, 1, 1⟩ = some r ∧
      r.trades = [
        ⟨100, Action.BUY, xs252.getD 100 0, ⌊(10000 : ℚ) / xs252.getD 100 0⌋,
          (⌊(10000 : ℚ) / xs252.getD 100 0⌋ : ℤ) * xs252.getD 100 0, 1⟩,
        ⟨200, Action.SELL, xs252.getD 200 0, ⌊(10000 : ℚ) / xs252.getD 100 0⌋,
          (⌊(10000 : ℚ) / xs252.getD 100 0⌋ : ℤ) * xs252.getD 200 0, 1⟩] ∧
      1 ≤ ⌊(10000 : ℚ) / xs252.getD 100 0⌋ ∧
      r.total_trades = 2 :=
  ma_crossover_two_trades xs252 xs252_len xs252_pos xs252_cap
    (fun i h1 h2 => xs252_crossUp i (by omega) h1)
    (fun i h1 h2 => xs252_crossDown i (by omega) h1)

end StockPred
